import Mathlib

/-!
Verification of `src/ParamBinders/ParamBinder.ts`: the single-parameter binder
class `ParamBinder<TModel, TModelValue>` and the orchestrating codec class
`ModelBinder<TModel>` (`addParamBinder`, `getModelFromUrlParams`,
`getUrlParamsFromModel`).

Embedding conventions:
* `URLSearchParams` is an ordered association list of string pairs (`Params`
  below) with the standard `get`/`set`/`delete`/`keys` semantics.
* Asynchronous caller-supplied functions (validators, default suppliers,
  accessors, consistency checks) are pure Lean functions.  The `Promise.all`
  batches of the source are sequenced left to right; as the source relies on,
  each per-key task touches only its own model slot and its own parameter key,
  so this sequencing is the batch semantics.
* A JavaScript argument that may fail a `null`/`typeof`/`instanceof` check is
  an `Option`; a thrown `Error` is `Except.error` of its message.
* The model type `TModel` is an opaque type parameter `M`; mutation of the
  model record is functional update (`M → M` in `setValueToModelFunc`).
  Object identity (which heap object a write lands on), needed for the
  mutation/aliasing analysis, is modelled separately by the heap-instrumented
  variants `decodeHeap`/`encodeHeap` at the end of the definitions.
-/

/-- Embedding of the external `URLSearchParams` collaborator: an ordered list
of key/value string pairs, duplicates allowed. -/
abbrev Params : Type := List (String × String)

/-- Embedding of `URLSearchParams.prototype.get`: the value of the first entry
with the given key, or `none`. -/
def Params.get (p : Params) (k : String) : Option String :=
  (p.find? (fun e => e.1 == k)).map (fun e => e.2)

/-- Embedding of `URLSearchParams.prototype.delete`: removes every entry with
the given key. -/
def Params.delete (p : Params) (k : String) : Params :=
  p.filter (fun e => e.1 != k)

/-- Embedding of `URLSearchParams.prototype.set`: replaces the value of the
first entry with the given key in place and removes later duplicates of the
key, or appends a fresh entry when the key is absent. -/
def Params.set : Params → String → String → Params
  | [], k, v => [(k, v)]
  | e :: rest, k, v =>
    if e.1 == k then (k, v) :: Params.delete rest k
    else e :: Params.set rest k v

/-- Embedding of `Array.from(urlParams.keys())` (line 251): the keys in
insertion order, duplicates included. -/
def Params.keys (p : Params) : List String := p.map (fun e => e.1)

/-- Embedding of `new URLSearchParams()`. -/
def Params.empty : Params := []

/-- Embedding of the class `ParamBinder<TModel, TModelValue>` (lines 44-205).
`getModelFromUrlParams` feeds the strings produced by `parseUrlParamValue` and
`getDefaultParamValue` straight into `setValueToModel`, so the model-value type
is `String` here.  Field names follow the private/protected members:
* `defaultParamValue` (lines 62-87): the constructor accepts a constant string
  or an async function of the (optional) parameter set; both cases are one
  function `Option Params → String` (a constant ignores the argument).
* `getUrlParamValueFunc` returns `none` where the source function returns
  `undefined`/`null` (line 160); a string result stringifies to itself.
* `isModelConsistentFunc` is `none` when the optional constructor parameter
  was absent or not a function (lines 123-125). -/
structure ParamBinder (M : Type) where
  urlParamName : String
  defaultParamValue : Option Params → String
  setValueToModelFunc : M → String → M
  getUrlParamValueFunc : M → Option String
  isModelConsistentFunc : Option (M → Bool)
  isUrlParamValueValidFunc : String → Option Params → Bool

/-- Embedding of `ParamBinder.getDefaultParamValue` (lines 71-78): invoke the
supplier on the given parameter set (a constant supplier ignores it). -/
def ParamBinder.getDefaultParamValue {M : Type} (b : ParamBinder M)
    (allParams : Option Params) : String :=
  b.defaultParamValue allParams

/-- Embedding of `ParamBinder.isUrlParamValid` (lines 199-204): delegate to the
constructor-supplied predicate. -/
def ParamBinder.isUrlParamValid {M : Type} (b : ParamBinder M) (str : String)
    (allParams : Option Params) : Bool :=
  b.isUrlParamValueValidFunc str allParams

/-- Embedding of `ParamBinder.parseUrlParamValue` (lines 144-152): the value
itself when valid, the default value otherwise. -/
def ParamBinder.parseUrlParamValue {M : Type} (b : ParamBinder M) (value : String)
    (allParams : Option Params) : String :=
  if !(b.isUrlParamValid value allParams) then b.getDefaultParamValue allParams
  else value

/-- Embedding of `ParamBinder.getUrlParamValue` (lines 158-163): the value read
from the model, or the no-context default when the read is `undefined`/`null`. -/
def ParamBinder.getUrlParamValue {M : Type} (b : ParamBinder M) (model : M) : String :=
  match b.getUrlParamValueFunc model with
  | none => b.getDefaultParamValue none
  | some valToReturn => valToReturn

/-- Embedding of `ParamBinder.setToModel` (lines 171-176): throws when the
model argument is `null`/non-object (`none` here), otherwise delegates to the
write accessor. -/
def ParamBinder.setToModel {M : Type} (b : ParamBinder M) (model : Option M)
    (urlParamValue : String) : Except String M :=
  match model with
  | none => Except.error "model must be a non-null object"
  | some m => Except.ok (b.setValueToModelFunc m urlParamValue)

/-- Embedding of `ParamBinder.isModelConsistent` (lines 183-188): delegate to
the optional predicate, `true` when none was supplied. -/
def ParamBinder.isModelConsistent {M : Type} (b : ParamBinder M) (model : M) : Bool :=
  match b.isModelConsistentFunc with
  | some f => f model
  | none => true

/-- Embedding of the result type `ModelParseResult<T>` (lines 208-211): a
record with two optional fields. -/
structure ModelParseResult (M : Type) where
  model? : Option M := none
  newParams? : Option Params := none
deriving DecidableEq

/-- Embedding of the class `ModelBinder<TModel>` (line 213): its only state is
the `#paramBinders` registry. -/
structure ModelBinder (M : Type) where
  paramBinders : List (ParamBinder M) := []

/-- Embedding of `ModelBinder.addParamBinder` (lines 216-233).  The argument is
`none` when the caller passed a value that is not a `ParamBinder` instance.
The result is the binder registry after the call (a throwing call leaves
`#paramBinders` untouched — the `push` runs only after both checks) paired
with the message of the thrown error, if any; `none` in the second component
is the non-throwing call that returns `this` for chaining, whose registry is
the first component. -/
def ModelBinder.addParamBinder {M : Type} (mb : ModelBinder M)
    (paramBinder : Option (ParamBinder M)) : ModelBinder M × Option String :=
  match paramBinder with
  | none => (mb, some "paramBinder must be instance of BaseParamBinder")
  | some pb =>
    let urlParamName := pb.urlParamName
    if mb.paramBinders.any (fun pb' => pb'.urlParamName == urlParamName) then
      (mb, some ("paramBinder with urlParamName " ++ urlParamName ++ " already exists"))
    else
      ({ paramBinders := mb.paramBinders ++ [pb] }, none)

/-- Embedding of the absent-key arm of `getModelFromUrlParams` (lines 259-266):
for one binder name missing from the parameter set, look the binder up and
assign its parameter-set-aware default to the model through `setToModel`. -/
def ModelBinder.absentStepE {M : Type} (mb : ModelBinder M) (urlParams : Params)
    (model : M) (key : String) : Except String M :=
  match mb.paramBinders.find? (fun pb => pb.urlParamName == key) with
  | none => Except.ok model
  | some paramBinder =>
    paramBinder.setToModel (some model)
      (paramBinder.getDefaultParamValue (some urlParams))

/-- Embedding of the present-key arm of `getModelFromUrlParams` (lines
270-296): state is `(hasErrors, newParams, model)`.  A key with no binder is
ignored; an invalid value sets the error flag and deletes the key from
`newParams`; a valid value is resolved through `parseUrlParamValue` and
assigned to the model. -/
def ModelBinder.presentStepE {M : Type} (mb : ModelBinder M) (urlParams : Params)
    (st : Bool × Params × M) (key : String) : Except String (Bool × Params × M) :=
  match mb.paramBinders.find? (fun pb => pb.urlParamName == key) with
  | none => Except.ok st
  | some paramBinder =>
    if !(paramBinder.isUrlParamValid ((Params.get urlParams key).getD "") (some urlParams)) then
      Except.ok (true, Params.delete st.2.1 key, st.2.2)
    else do
      let parsedValue := paramBinder.parseUrlParamValue
        ((Params.get urlParams key).getD "") (some urlParams)
      let m ← paramBinder.setToModel (some st.2.2) parsedValue
      Except.ok (st.1, st.2.1, m)

/-- Embedding of `ModelBinder.getModelFromUrlParams` (lines 235-319), the
decode direction.  `model?` is the optional caller model: `none` stands for an
absent/`null`/non-object argument, for which line 244 substitutes a fresh empty
record — `emptyModel` embeds the `{} as TModel` literal; otherwise line 246
continues with a `structuredClone`, which for the pure embedding is the value
itself (the heap variant `decodeHeap` accounts for the fresh identity).
`newParams` starts as the `new URLSearchParams(urlParams)` copy (line 248).
The `urlParams instanceof URLSearchParams` guard of line 239 is discharged by
typing.  The two `Promise.all` batches are the two folds; the final section
mirrors lines 299-318. -/
def ModelBinder.getModelFromUrlParams {M : Type} (mb : ModelBinder M) (emptyModel : M)
    (urlParams : Params) (model? : Option M) : Except String (ModelParseResult M) := do
  let model : M :=
    match model? with
    | none => emptyModel
    | some m => m
  let newParams : Params := urlParams
  let urlParamsKeys : List String := Params.keys urlParams
  let paramBindersKeys : List String := mb.paramBinders.map (fun pb => pb.urlParamName)
  let model ← (paramBindersKeys.filter (fun key => !(urlParamsKeys.contains key))).foldlM
      (mb.absentStepE urlParams) model
  let st ← urlParamsKeys.foldlM (mb.presentStepE urlParams) (false, newParams, model)
  let hasErrors := st.1
  let newParams := st.2.1
  let model := st.2.2
  if hasErrors then
    return { newParams? := some newParams }
  let consistencyCheckResults := mb.paramBinders.map (fun pb => pb.isModelConsistent model)
  if consistencyCheckResults.any (fun r => r == false) then
    let newParams := mb.paramBinders.foldl
        (fun (np : Params) (pb : ParamBinder M) =>
          Params.set np pb.urlParamName (pb.getDefaultParamValue (some urlParams))) newParams
    return { newParams? := some newParams }
  return { model? := some model }

/-- Embedding of the per-binder body of `getUrlParamsFromModel` (lines
334-342): read the value from the model, compute the default against the
in-progress parameter set, and set the key only when the two differ. -/
def encodeStep {M : Type} (model : M) (up : Params) (pb : ParamBinder M) : Params :=
  let urlParamValue := pb.getUrlParamValue model
  let defaultParamValue := pb.getDefaultParamValue (some up)
  if urlParamValue != defaultParamValue then
    Params.set up pb.urlParamName urlParamValue
  else up

/-- Embedding of `ModelBinder.getUrlParamsFromModel` (lines 321-345), the
encode direction.  `model?` is `none` for a `null`/falsy/non-object model
argument (line 325); `searchParams?` is `none` when the `searchParams`
argument is absent or not a `URLSearchParams` instance, for which line 332
substitutes a fresh empty set — otherwise the output is the caller's own set
(line 331; the aliasing is visible in `encodeHeap`). -/
def ModelBinder.getUrlParamsFromModel {M : Type} (mb : ModelBinder M)
    (model? : Option M) (searchParams? : Option Params) : Except String Params :=
  match model? with
  | none => Except.error "model must be a non-null object"
  | some model =>
    let urlParams : Params :=
      match searchParams? with
      | some searchParams => searchParams
      | none => Params.empty
    Except.ok (mb.paramBinders.foldl (encodeStep model) urlParams)

/-! Pure mirrors of the two decode batches and of the decode result, used to
state and prove properties of `getModelFromUrlParams`; each mirrors the same
source lines as its `Except`-valued counterpart, with the (provably
unreachable) `setToModel` error branch collapsed. -/

/-- Pure mirror of `ModelBinder.absentStepE`. -/
def ModelBinder.absentStep {M : Type} (mb : ModelBinder M) (urlParams : Params)
    (model : M) (key : String) : M :=
  match mb.paramBinders.find? (fun pb => pb.urlParamName == key) with
  | none => model
  | some paramBinder =>
    paramBinder.setValueToModelFunc model (paramBinder.getDefaultParamValue (some urlParams))

/-- Pure mirror of the whole absent-key batch (lines 256-267). -/
def ModelBinder.decodeAbsent {M : Type} (mb : ModelBinder M) (urlParams : Params)
    (model : M) : M :=
  (((mb.paramBinders.map (fun pb => pb.urlParamName)).filter
      (fun key => !((Params.keys urlParams).contains key)))).foldl
    (mb.absentStep urlParams) model

/-- Pure mirror of `ModelBinder.presentStepE`. -/
def ModelBinder.presentStep {M : Type} (mb : ModelBinder M) (urlParams : Params)
    (st : Bool × Params × M) (key : String) : Bool × Params × M :=
  match mb.paramBinders.find? (fun pb => pb.urlParamName == key) with
  | none => st
  | some paramBinder =>
    if !(paramBinder.isUrlParamValid ((Params.get urlParams key).getD "") (some urlParams)) then
      (true, Params.delete st.2.1 key, st.2.2)
    else
      (st.1, st.2.1, paramBinder.setValueToModelFunc st.2.2
        (paramBinder.parseUrlParamValue ((Params.get urlParams key).getD "") (some urlParams)))

/-- Pure mirror of the whole present-key batch (lines 269-297). -/
def ModelBinder.decodePresent {M : Type} (mb : ModelBinder M) (urlParams : Params)
    (st : Bool × Params × M) : Bool × Params × M :=
  (Params.keys urlParams).foldl (mb.presentStep urlParams) st

/-- Model component of one present-key step, in isolation. -/
def ModelBinder.presentModelStep {M : Type} (mb : ModelBinder M) (urlParams : Params)
    (model : M) (key : String) : M :=
  match mb.paramBinders.find? (fun pb => pb.urlParamName == key) with
  | none => model
  | some paramBinder =>
    if !(paramBinder.isUrlParamValid ((Params.get urlParams key).getD "") (some urlParams)) then
      model
    else
      paramBinder.setValueToModelFunc model
        (paramBinder.parseUrlParamValue ((Params.get urlParams key).getD "") (some urlParams))

/-- Key `key` is present with a registered binder and fails that binder's
validity check (the condition of lines 279-288 that sets `hasErrors`). -/
def ModelBinder.isInvalidKey {M : Type} (mb : ModelBinder M) (urlParams : Params)
    (key : String) : Bool :=
  match mb.paramBinders.find? (fun pb => pb.urlParamName == key) with
  | none => false
  | some paramBinder =>
    !(paramBinder.isUrlParamValid ((Params.get urlParams key).getD "") (some urlParams))

/-- Some present key has a registered binder whose validity check fails. -/
def ModelBinder.hasInvalidKey {M : Type} (mb : ModelBinder M) (urlParams : Params) : Bool :=
  (Params.keys urlParams).any (mb.isInvalidKey urlParams)

/-- Some registered binder's whole-model consistency check returns `false`
(the condition of line 307). -/
def ModelBinder.anyInconsistent {M : Type} (mb : ModelBinder M) (model : M) : Bool :=
  (mb.paramBinders.map (fun pb => pb.isModelConsistent model)).any (fun r => r == false)

/-- Pure mirror of the consistency-failure reset (lines 308-315): overwrite
every registered binder's key with its default computed against the original
input parameter set. -/
def ModelBinder.resetToDefaults {M : Type} (mb : ModelBinder M) (urlParams np : Params) :
    Params :=
  mb.paramBinders.foldl
    (fun (np : Params) (pb : ParamBinder M) =>
      Params.set np pb.urlParamName (pb.getDefaultParamValue (some urlParams))) np

/-- The model assembled by the two decode batches. -/
def ModelBinder.decodedModel {M : Type} (mb : ModelBinder M) (emptyModel : M)
    (urlParams : Params) (model? : Option M) : M :=
  (mb.decodePresent urlParams
    (false, urlParams, mb.decodeAbsent urlParams (model?.getD emptyModel))).2.2

/-- Pure mirror of the whole of `getModelFromUrlParams`. -/
def ModelBinder.decodePure {M : Type} (mb : ModelBinder M) (emptyModel : M)
    (urlParams : Params) (model? : Option M) : ModelParseResult M :=
  let st := mb.decodePresent urlParams
    (false, urlParams, mb.decodeAbsent urlParams (model?.getD emptyModel))
  if st.1 then { newParams? := some st.2.1 }
  else if mb.anyInconsistent st.2.2 then
    { newParams? := some (mb.resetToDefaults urlParams st.2.1) }
  else { model? := some st.2.2 }

/-- Encode fold over an explicit binder list (the body of lines 333-343),
exposed so that statements can speak about the parameter set in progress after
a prefix of the registry. -/
def encodeFold {M : Type} (binders : List (ParamBinder M)) (model : M) (up : Params) :
    Params :=
  binders.foldl (encodeStep model) up

/-! Heap-instrumented variants.  `PHeap`/`MHeap` hold the live
`URLSearchParams` and model objects; a `Nat` is an object reference.  The
writes of the source (to `newParams`, to the cloned model, to the encode
output set) become `List.set` at the written object's reference, so which
caller-visible object each operation mutates is provable. -/

/-- Heap of `URLSearchParams` objects. -/
abbrev PHeap : Type := List Params

/-- Heap of model records. -/
abbrev MHeap (M : Type) : Type := List M

/-- Heap version of `encodeStep`: the write of line 340 lands on the object at
reference `r`. -/
def encodeHeapStep {M : Type} (model : M) (r : Nat) (hp : PHeap) (pb : ParamBinder M) :
    PHeap :=
  let up := hp.getD r Params.empty
  let urlParamValue := pb.getUrlParamValue model
  let defaultParamValue := pb.getDefaultParamValue (some up)
  if urlParamValue != defaultParamValue then
    hp.set r (Params.set up pb.urlParamName urlParamValue)
  else hp

/-- Heap version of `getUrlParamsFromModel` (lines 321-345).  `modelRef?` is
the caller's model object (`none` for `null`); `searchParamsRef?` is the
caller's parameter-set object.  Line 331 binds the output to the caller's own
object when one is supplied; line 332 allocates a fresh one otherwise.
Returns the reference of the returned object and the final heap. -/
def ModelBinder.encodeHeap {M : Type} (mb : ModelBinder M) (hm : MHeap M) (hp : PHeap)
    (modelRef? : Option Nat) (searchParamsRef? : Option Nat) :
    Except String (Nat × PHeap) :=
  match modelRef?.bind (fun mr => hm[mr]?) with
  | none => Except.error "model must be a non-null object"
  | some model =>
    match searchParamsRef? with
    | some r => Except.ok (r, mb.paramBinders.foldl (encodeHeapStep model r) hp)
    | none =>
      Except.ok (hp.length,
        mb.paramBinders.foldl (encodeHeapStep model hp.length) (hp ++ [Params.empty]))

/-- Heap version of `ModelBinder.absentStepE`: the model write lands on the
cell `mRef`. -/
def ModelBinder.absentHeapStep {M : Type} (mb : ModelBinder M) (urlParams : Params)
    (mRef : Nat) (hm : MHeap M) (key : String) : Except String (MHeap M) :=
  match mb.paramBinders.find? (fun pb => pb.urlParamName == key) with
  | none => Except.ok hm
  | some paramBinder => do
    let m ← paramBinder.setToModel hm[mRef]?
      (paramBinder.getDefaultParamValue (some urlParams))
    Except.ok (hm.set mRef m)

/-- Heap version of `ModelBinder.presentStepE`: the `newParams` delete lands on
cell `newRef`, the model write on cell `mRef`. -/
def ModelBinder.presentHeapStep {M : Type} (mb : ModelBinder M) (urlParams : Params)
    (newRef mRef : Nat) (st : Bool × PHeap × MHeap M) (key : String) :
    Except String (Bool × PHeap × MHeap M) :=
  match mb.paramBinders.find? (fun pb => pb.urlParamName == key) with
  | none => Except.ok st
  | some paramBinder =>
    if !(paramBinder.isUrlParamValid ((Params.get urlParams key).getD "") (some urlParams)) then
      Except.ok (true,
        st.2.1.set newRef (Params.delete (st.2.1.getD newRef Params.empty) key), st.2.2)
    else do
      let parsedValue := paramBinder.parseUrlParamValue
        ((Params.get urlParams key).getD "") (some urlParams)
      let m ← paramBinder.setToModel st.2.2[mRef]? parsedValue
      Except.ok (st.1, st.2.1, st.2.2.set mRef m)

/-- Heap version of `getModelFromUrlParams` (lines 235-319).  `urlRef` is the
caller's parameter-set object; `modelRef?` the caller's model object (`none`
for absent/`null`).  Line 244/246 allocates the fresh working model (empty
record or `structuredClone`), line 248 the fresh `newParams` copy; all decode
writes land on those two fresh cells. -/
def ModelBinder.decodeHeap {M : Type} (mb : ModelBinder M) (emptyModel : M)
    (hp : PHeap) (hm : MHeap M) (urlRef : Nat) (modelRef? : Option Nat) :
    Except String (PHeap × MHeap M × ModelParseResult M) := do
  let urlParams : Params := hp.getD urlRef Params.empty
  let initModel : M :=
    match modelRef?.bind (fun mr => hm[mr]?) with
    | none => emptyModel
    | some m => m
  let mRef : Nat := hm.length
  let hm : MHeap M := hm ++ [initModel]
  let newRef : Nat := hp.length
  let hp : PHeap := hp ++ [urlParams]
  let urlParamsKeys : List String := Params.keys urlParams
  let paramBindersKeys : List String := mb.paramBinders.map (fun pb => pb.urlParamName)
  let hm ← (paramBindersKeys.filter (fun key => !(urlParamsKeys.contains key))).foldlM
      (mb.absentHeapStep urlParams mRef) hm
  let st ← urlParamsKeys.foldlM (mb.presentHeapStep urlParams newRef mRef) (false, hp, hm)
  let hasErrors := st.1
  let hp := st.2.1
  let hm := st.2.2
  if hasErrors then
    return (hp, hm, { newParams? := some (hp.getD newRef Params.empty) })
  let model : M := hm.getD mRef emptyModel
  let consistencyCheckResults := mb.paramBinders.map (fun pb => pb.isModelConsistent model)
  if consistencyCheckResults.any (fun r => r == false) then
    let hp := mb.paramBinders.foldl
        (fun (hp : PHeap) (pb : ParamBinder M) =>
          hp.set newRef (Params.set (hp.getD newRef Params.empty) pb.urlParamName
            (pb.getDefaultParamValue (some urlParams)))) hp
    return (hp, hm, { newParams? := some (hp.getD newRef Params.empty) })
  return (hp, hm, { model? := some model })

/-! Concrete binder instances, used to evaluate the operations on closed
inputs.  The model type of all of them is itself a string record (`Params`),
written and read through ordinary key access. -/

/-- Record-field binder: writes value under `name`, reads it back, with a
constant default and a pluggable validity/consistency policy. -/
def mkBinder (name : String) (dflt : String) (valid : String → Option Params → Bool)
    (cons : Option (Params → Bool)) : ParamBinder Params :=
  { urlParamName := name
    defaultParamValue := fun _ => dflt
    setValueToModelFunc := fun m v => Params.set m name v
    getUrlParamValueFunc := fun m => Params.get m name
    isModelConsistentFunc := cons
    isUrlParamValueValidFunc := valid }

/-- Binder `A`: always valid. -/
def binderA : ParamBinder Params := mkBinder "A" "defA" (fun _ _ => true) none

/-- Binder `B`: valid only for the value `5`. -/
def binderB : ParamBinder Params := mkBinder "B" "5" (fun v _ => v == "5") none

/-- Registry with binders `A` and `B`. -/
def mbAB : ModelBinder Params := { paramBinders := [binderA, binderB] }

/-- Binder `C`: always valid, but its whole-model consistency check always
rejects. -/
def binderC : ParamBinder Params := mkBinder "C" "c0" (fun _ _ => true)
  (some (fun _ => false))

/-- Registry with binders `A` and `C`. -/
def mbAC : ModelBinder Params := { paramBinders := [binderA, binderC] }

/-- Binder `a`: always valid, default `0`, plain record field. -/
def binderE : ParamBinder Params := mkBinder "a" "0" (fun _ _ => true) none

/-- Registry with the single binder `a`. -/
def mbE : ModelBinder Params := { paramBinders := [binderE] }

/-- Binder `a` whose validity check consults the unregistered key `u`: the
value is valid exactly while `u` is absent from the parameter set. -/
def binderU : ParamBinder Params :=
  { urlParamName := "a"
    defaultParamValue := fun _ => "0"
    setValueToModelFunc := fun m val => Params.set m "a" val
    getUrlParamValueFunc := fun m => Params.get m "a"
    isModelConsistentFunc := none
    isUrlParamValueValidFunc := fun _ ps =>
      match ps with
      | some ps => !(Params.get ps "u").isSome
      | none => true }

/-- Registry with the single binder `binderU`. -/
def mbU : ModelBinder Params := { paramBinders := [binderU] }

/-- Binder `a` whose read accessor decorates the stored field with a `!`:
write/read do not round-trip. -/
def binderBang : ParamBinder Params :=
  { urlParamName := "a"
    defaultParamValue := fun _ => "0"
    setValueToModelFunc := fun m val => Params.set m "a" val
    getUrlParamValueFunc := fun m => (Params.get m "a").map (fun s => s ++ "!")
    isModelConsistentFunc := none
    isUrlParamValueValidFunc := fun _ _ => true }

/-- Registry with the single binder `binderBang`. -/
def mbBang : ModelBinder Params := { paramBinders := [binderBang] }

/-! Library of small lemmas about the `URLSearchParams` embedding. -/

theorem Params.get_cons (e : String × String) (rest : Params) (a : String) :
    Params.get (e :: rest) a = if e.1 == a then some e.2 else Params.get rest a := by
  cases h : e.1 == a <;> simp [Params.get, List.find?, h]

theorem Params.delete_cons (e : String × String) (rest : Params) (k : String) :
    Params.delete (e :: rest) k =
      if e.1 == k then Params.delete rest k else e :: Params.delete rest k := by
  by_cases h : e.1 = k <;> simp [Params.delete, List.filter_cons, h]

theorem Params.get_delete (p : Params) (k a : String) :
    Params.get (Params.delete p k) a = if a = k then none else Params.get p a := by
  induction p with
  | nil => simp [Params.get, Params.delete]
  | cons e rest ih =>
    rw [Params.delete_cons]
    by_cases hek : e.1 = k
    · have h1 : (e.1 == k) = true := by simp [hek]
      rw [if_pos h1, ih]
      by_cases hak : a = k
      · simp [hak]
      · simp [hak, Params.get_cons, hek, Ne.symm hak]
    · have h1 : (e.1 == k) = false := by simp [hek]
      simp only [h1, Bool.false_eq_true, if_false]
      by_cases hae : e.1 = a
      · have hakn : ¬a = k := fun h => hek (hae.trans h)
        simp [Params.get_cons, hae, hakn]
      · simp [Params.get_cons, hae, ih]

theorem Params.get_set (p : Params) (k v : String) (a : String) :
    Params.get (Params.set p k v) a = if a = k then some v else Params.get p a := by
  induction p with
  | nil =>
    by_cases hak : a = k
    · simp [Params.set, Params.get_cons, hak]
    · simp [Params.set, Params.get_cons, Params.get, hak, Ne.symm hak]
  | cons e rest ih =>
    rw [Params.set]
    by_cases hek : e.1 = k
    · have h1 : (e.1 == k) = true := by simp [hek]
      rw [if_pos h1]
      by_cases hak : a = k
      · simp [Params.get_cons, hak]
      · simp [Params.get_cons, Params.get_delete, hak, hek, Ne.symm hak]
    · have h1 : (e.1 == k) = false := by simp [hek]
      simp only [h1, Bool.false_eq_true, if_false]
      by_cases hae : e.1 = a
      · have hakn : ¬a = k := fun h => hek (hae.trans h)
        simp [Params.get_cons, hae, hakn]
      · simp [Params.get_cons, hae, ih]

theorem Params.keys_cons (e : String × String) (rest : Params) :
    Params.keys (e :: rest) = e.1 :: Params.keys rest := rfl

theorem Params.mem_keys (p : Params) (a : String) :
    a ∈ Params.keys p ↔ (Params.get p a).isSome := by
  induction p with
  | nil => simp [Params.keys, Params.get]
  | cons e rest ih =>
    rw [Params.keys_cons, List.mem_cons, Params.get_cons]
    cases h : e.1 == a with
    | true =>
      have he : e.1 = a := by simpa using h
      simp [he]
    | false =>
      have he : ¬e.1 = a := by simpa using h
      simp [h, ih]
      intro hc
      exact absurd hc.symm he

theorem Params.get_append (p q : Params) (a : String) :
    Params.get (p ++ q) a =
      match Params.get p a with
      | some v => some v
      | none => Params.get q a := by
  induction p with
  | nil => simp [Params.get]
  | cons e rest ih =>
    cases h : e.1 == a <;> simp [Params.get_cons, h, ih]

theorem exceptOkBind {ε α β : Type} (a : α) (f : α → Except ε β) :
    (Except.ok a >>= f) = f a := rfl

theorem exceptPureEq {ε α : Type} (a : α) : (pure a : Except ε α) = Except.ok a := rfl

theorem foldlM_ok {σ α : Type} (fE : σ → α → Except String σ) (f : σ → α → σ)
    (h : ∀ s x, fE s x = Except.ok (f s x)) :
    ∀ (l : List α) (s : σ), l.foldlM fE s = Except.ok (l.foldl f s) := by
  intro l
  induction l with
  | nil => intro s; rfl
  | cons x l ih => intro s; simp [List.foldlM_cons, h s x, ih, exceptOkBind]

theorem absentStepE_ok {M : Type} (mb : ModelBinder M) (urlParams : Params)
    (model : M) (key : String) :
    mb.absentStepE urlParams model key = Except.ok (mb.absentStep urlParams model key) := by
  unfold ModelBinder.absentStepE ModelBinder.absentStep
  cases h : mb.paramBinders.find? (fun pb => pb.urlParamName == key) <;>
    simp [ParamBinder.setToModel]

theorem presentStepE_ok {M : Type} (mb : ModelBinder M) (urlParams : Params)
    (st : Bool × Params × M) (key : String) :
    mb.presentStepE urlParams st key = Except.ok (mb.presentStep urlParams st key) := by
  unfold ModelBinder.presentStepE ModelBinder.presentStep
  cases h : mb.paramBinders.find? (fun pb => pb.urlParamName == key) <;>
    simp [ParamBinder.setToModel, exceptOkBind, apply_ite Except.ok]

theorem getModelFromUrlParams_eq {M : Type} (mb : ModelBinder M) (emptyModel : M)
    (urlParams : Params) (model? : Option M) :
    mb.getModelFromUrlParams emptyModel urlParams model? =
      Except.ok (mb.decodePure emptyModel urlParams model?) := by
  unfold ModelBinder.getModelFromUrlParams ModelBinder.decodePure
  simp only [foldlM_ok _ _ (fun s x => absentStepE_ok mb urlParams s x),
    foldlM_ok _ _ (fun s x => presentStepE_ok mb urlParams s x), exceptOkBind]
  cases model? <;>
    simp [ModelBinder.decodeAbsent, ModelBinder.decodePresent, ModelBinder.anyInconsistent,
      ModelBinder.resetToDefaults, exceptOkBind, exceptPureEq, apply_ite Except.ok]

theorem getUrlParamsFromModel_eq {M : Type} (mb : ModelBinder M) (model : M)
    (searchParams? : Option Params) :
    mb.getUrlParamsFromModel (some model) searchParams? =
      Except.ok (encodeFold mb.paramBinders model (searchParams?.getD Params.empty)) := by
  cases searchParams? <;> rfl

/-! Componentwise characterisation of the present-key batch. -/

theorem presentStep_fst {M : Type} (mb : ModelBinder M) (urlParams : Params)
    (st : Bool × Params × M) (key : String) :
    (mb.presentStep urlParams st key).1 = (st.1 || mb.isInvalidKey urlParams key) := by
  unfold ModelBinder.presentStep ModelBinder.isInvalidKey
  cases h : mb.paramBinders.find? (fun pb => pb.urlParamName == key) with
  | none => simp
  | some pb =>
    cases hv : pb.isUrlParamValid ((Params.get urlParams key).getD "") (some urlParams) <;>
      simp [hv]

theorem presentStep_np {M : Type} (mb : ModelBinder M) (urlParams : Params)
    (st : Bool × Params × M) (key : String) :
    (mb.presentStep urlParams st key).2.1 =
      if mb.isInvalidKey urlParams key then Params.delete st.2.1 key else st.2.1 := by
  unfold ModelBinder.presentStep ModelBinder.isInvalidKey
  cases h : mb.paramBinders.find? (fun pb => pb.urlParamName == key) with
  | none => simp
  | some pb =>
    cases hv : pb.isUrlParamValid ((Params.get urlParams key).getD "") (some urlParams) <;>
      simp [hv]

theorem presentStep_model {M : Type} (mb : ModelBinder M) (urlParams : Params)
    (st : Bool × Params × M) (key : String) :
    (mb.presentStep urlParams st key).2.2 = mb.presentModelStep urlParams st.2.2 key := by
  unfold ModelBinder.presentStep ModelBinder.presentModelStep
  cases h : mb.paramBinders.find? (fun pb => pb.urlParamName == key) with
  | none => simp
  | some pb =>
    cases hv : pb.isUrlParamValid ((Params.get urlParams key).getD "") (some urlParams) <;>
      simp [hv]

theorem presentFold_fst {M : Type} (mb : ModelBinder M) (urlParams : Params) :
    ∀ (K : List String) (st : Bool × Params × M),
      ((K.foldl (mb.presentStep urlParams) st).1) =
        (st.1 || K.any (mb.isInvalidKey urlParams)) := by
  intro K
  induction K with
  | nil => intro st; simp
  | cons k K ih =>
    intro st
    simp [List.foldl_cons, ih, presentStep_fst, Bool.or_assoc]

theorem presentFold_np {M : Type} (mb : ModelBinder M) (urlParams : Params) :
    ∀ (K : List String) (st : Bool × Params × M),
      ((K.foldl (mb.presentStep urlParams) st).2.1) =
        K.foldl (fun np k => if mb.isInvalidKey urlParams k then Params.delete np k else np)
          st.2.1 := by
  intro K
  induction K with
  | nil => intro st; simp
  | cons k K ih =>
    intro st
    rw [List.foldl_cons, List.foldl_cons, ih, presentStep_np]

theorem presentFold_model {M : Type} (mb : ModelBinder M) (urlParams : Params) :
    ∀ (K : List String) (st : Bool × Params × M),
      ((K.foldl (mb.presentStep urlParams) st).2.2) =
        K.foldl (mb.presentModelStep urlParams) st.2.2 := by
  intro K
  induction K with
  | nil => intro st; simp
  | cons k K ih =>
    intro st
    rw [List.foldl_cons, List.foldl_cons, ih, presentStep_model]

theorem deleteFold_filter (inv : String → Bool) :
    ∀ (K : List String) (np : Params),
      K.foldl (fun np k => if inv k then Params.delete np k else np) np =
        np.filter (fun e => !(inv e.1 && K.contains e.1)) := by
  intro K
  induction K with
  | nil =>
    intro np
    simp
  | cons k K ih =>
    intro np
    rw [List.foldl_cons, ih]
    by_cases hk : inv k
    · rw [if_pos hk, show Params.delete np k = np.filter (fun e => e.1 != k) from rfl,
        List.filter_filter]
      apply List.filter_congr
      intro e he
      cases hek : e.1 == k with
      | true =>
        have : e.1 = k := by simpa using hek
        simp [this, hk, List.contains_cons]
      | false =>
        have hne : ¬e.1 = k := by simpa using hek
        simp [hek, hne, List.contains_cons, bne]
    · rw [if_neg hk]
      apply List.filter_congr
      intro e he
      cases hek : e.1 == k with
      | true =>
        have : e.1 = k := by simpa using hek
        simp [this, hk, List.contains_cons, hek]
      | false =>
        have hne : ¬e.1 = k := by simpa using hek
        simp [hek, hne, List.contains_cons]

theorem decodePresent_fst {M : Type} (mb : ModelBinder M) (urlParams : Params) (m : M) :
    (mb.decodePresent urlParams (false, urlParams, m)).1 = mb.hasInvalidKey urlParams := by
  unfold ModelBinder.decodePresent ModelBinder.hasInvalidKey
  rw [presentFold_fst]
  simp

theorem decodePresent_np_init {M : Type} (mb : ModelBinder M) (urlParams : Params) (m : M) :
    (mb.decodePresent urlParams (false, urlParams, m)).2.1 =
      urlParams.filter (fun e => !(mb.isInvalidKey urlParams e.1)) := by
  unfold ModelBinder.decodePresent
  rw [presentFold_np, deleteFold_filter]
  apply List.filter_congr
  intro e he
  have hmem : e.1 ∈ Params.keys urlParams := List.mem_map_of_mem _ he
  have hc : (Params.keys urlParams).contains e.1 = true := by
    simpa [List.elem_iff] using hmem
  simp [hc]
  intro hx
  exact absurd hmem hx

theorem decodedModel_eq {M : Type} (mb : ModelBinder M) (emptyModel : M)
    (urlParams : Params) (model? : Option M) :
    mb.decodedModel emptyModel urlParams model? =
      (Params.keys urlParams).foldl (mb.presentModelStep urlParams)
        (mb.decodeAbsent urlParams (model?.getD emptyModel)) := by
  unfold ModelBinder.decodedModel ModelBinder.decodePresent
  rw [presentFold_model]

theorem filter_of_noInvalidKey {M : Type} (mb : ModelBinder M) (urlParams : Params)
    (h : mb.hasInvalidKey urlParams = false) :
    urlParams.filter (fun e => !(mb.isInvalidKey urlParams e.1)) = urlParams := by
  rw [List.filter_eq_self]
  intro e he
  have hmem : e.1 ∈ Params.keys urlParams := List.mem_map_of_mem _ he
  unfold ModelBinder.hasInvalidKey at h
  rw [List.any_eq_false] at h
  simp [h e.1 hmem]

theorem decodePure_eq {M : Type} (mb : ModelBinder M) (emptyModel : M)
    (urlParams : Params) (model? : Option M) :
    mb.decodePure emptyModel urlParams model? =
      if mb.hasInvalidKey urlParams then
        { model? := none,
          newParams? := some (urlParams.filter (fun e => !(mb.isInvalidKey urlParams e.1))) }
      else if mb.anyInconsistent (mb.decodedModel emptyModel urlParams model?) then
        { model? := none, newParams? := some (mb.resetToDefaults urlParams urlParams) }
      else
        { model? := some (mb.decodedModel emptyModel urlParams model?), newParams? := none } := by
  unfold ModelBinder.decodePure
  simp only [decodePresent_fst, decodePresent_np_init,
    show (mb.decodePresent urlParams (false, urlParams,
        mb.decodeAbsent urlParams (model?.getD emptyModel))).2.2 =
      mb.decodedModel emptyModel urlParams model? from rfl]
  cases h : mb.hasInvalidKey urlParams with
  | true => simp [h]
  | false => simp [h, filter_of_noInvalidKey mb urlParams h]

/-! Lemmas about the registry: uniqueness of names and lookup. -/

theorem find?_eq_self_of_nodup {M : Type} :
    ∀ (l : List (ParamBinder M)) (pb : ParamBinder M),
      (l.map (fun x => x.urlParamName)).Nodup → pb ∈ l →
      l.find? (fun x => x.urlParamName == pb.urlParamName) = some pb := by
  intro l
  induction l with
  | nil => intro pb _ h; cases h
  | cons b rest ih =>
    intro pb hnd hmem
    rw [List.map_cons, List.nodup_cons] at hnd
    rcases List.mem_cons.mp hmem with h | h
    · subst h
      simp [List.find?]
    · have hne : ¬b.urlParamName = pb.urlParamName := by
        intro he
        exact hnd.1 (he ▸ List.mem_map_of_mem _ h)
      have : (b.urlParamName == pb.urlParamName) = false := by simp [hne]
      simp [List.find?, this, ih pb hnd.2 h]

theorem get_setDefaultsFold_not_mem {M : Type} (urlParams : Params) :
    ∀ (l : List (ParamBinder M)) (np : Params) (a : String),
      (∀ pb ∈ l, pb.urlParamName ≠ a) →
      Params.get (l.foldl (fun np pb =>
        Params.set np pb.urlParamName (pb.getDefaultParamValue (some urlParams))) np) a =
        Params.get np a := by
  intro l
  induction l with
  | nil => intro np a _; rfl
  | cons b rest ih =>
    intro np a h
    rw [List.foldl_cons, ih _ a (fun pb hpb => h pb (List.mem_cons_of_mem _ hpb)),
      Params.get_set, if_neg]
    exact fun he => h b (List.mem_cons_self _ _) (he ▸ rfl)

theorem get_setDefaultsFold_mem {M : Type} (urlParams : Params) :
    ∀ (l : List (ParamBinder M)) (np : Params) (pb : ParamBinder M),
      (l.map (fun x => x.urlParamName)).Nodup → pb ∈ l →
      Params.get (l.foldl (fun np pb =>
        Params.set np pb.urlParamName (pb.getDefaultParamValue (some urlParams))) np)
        pb.urlParamName = some (pb.getDefaultParamValue (some urlParams)) := by
  intro l
  induction l with
  | nil => intro np pb _ h; cases h
  | cons b rest ih =>
    intro np pb hnd hmem
    rw [List.map_cons, List.nodup_cons] at hnd
    rcases List.mem_cons.mp hmem with h | h
    · subst h
      rw [List.foldl_cons, get_setDefaultsFold_not_mem, Params.get_set, if_pos rfl]
      intro pb' hpb' he
      exact hnd.1 (he ▸ List.mem_map_of_mem _ hpb')
    · exact ih _ pb hnd.2 h

theorem get_resetToDefaults_mem {M : Type} (mb : ModelBinder M) (urlParams np : Params)
    (pb : ParamBinder M)
    (hnd : (mb.paramBinders.map (fun x => x.urlParamName)).Nodup)
    (hmem : pb ∈ mb.paramBinders) :
    Params.get (mb.resetToDefaults urlParams np) pb.urlParamName =
      some (pb.getDefaultParamValue (some urlParams)) :=
  get_setDefaultsFold_mem urlParams mb.paramBinders np pb hnd hmem

/-- C2: a decode call in which at least one present key with a registered
binder fails its validity check returns only `newParams` and no model, and
`newParams` is the input parameter set with exactly the invalid keys removed;
every other entry (valid or unregistered) is retained at its original value
and position. -/
theorem c2_invalid_keys_stripped {M : Type} (mb : ModelBinder M) (emptyModel : M)
    (urlParams : Params) (model? : Option M)
    (h : mb.hasInvalidKey urlParams = true) :
    mb.getModelFromUrlParams emptyModel urlParams model? =
      Except.ok
        { model? := none,
          newParams? := some (urlParams.filter (fun e => !(mb.isInvalidKey urlParams e.1))) } := by
  rw [getModelFromUrlParams_eq, decodePure_eq, if_pos h]

/-- C3: a decode call in which every present key passes validation but some
registered binder's whole-model consistency check rejects the assembled model
returns only `newParams` and no model, and in `newParams` every registered
binder's key holds that binder's default computed against the original input
parameter set. -/
theorem c3_consistency_reset {M : Type} (mb : ModelBinder M) (emptyModel : M)
    (urlParams : Params) (model? : Option M)
    (hnd : (mb.paramBinders.map (fun x => x.urlParamName)).Nodup)
    (hvalid : mb.hasInvalidKey urlParams = false)
    (hincons : mb.anyInconsistent (mb.decodedModel emptyModel urlParams model?) = true) :
    mb.getModelFromUrlParams emptyModel urlParams model? =
      Except.ok
        { model? := none,
          newParams? := some (mb.resetToDefaults urlParams urlParams) } ∧
    ∀ pb ∈ mb.paramBinders,
      Params.get (mb.resetToDefaults urlParams urlParams) pb.urlParamName =
        some (pb.getDefaultParamValue (some urlParams)) := by
  constructor
  · rw [getModelFromUrlParams_eq, decodePure_eq, if_neg (by simp [hvalid]), if_pos hincons]
  · intro pb hpb
    exact get_resetToDefaults_mem mb urlParams urlParams pb hnd hpb

/-- C4: every decode call returns exactly one of the two variants — a model
and no `newParams` exactly when no present key is invalid and every
consistency check passes, otherwise `newParams` and no model; never both
fields, never neither. -/
theorem c4_result_exclusive {M : Type} (mb : ModelBinder M) (emptyModel : M)
    (urlParams : Params) (model? : Option M) :
    ∃ r, mb.getModelFromUrlParams emptyModel urlParams model? = Except.ok r ∧
      r.model?.isSome = !r.newParams?.isSome ∧
      r.model?.isSome = (!mb.hasInvalidKey urlParams &&
        !mb.anyInconsistent (mb.decodedModel emptyModel urlParams model?)) := by
  refine ⟨_, getModelFromUrlParams_eq mb emptyModel urlParams model?, ?_, ?_⟩ <;>
    cases h1 : mb.hasInvalidKey urlParams <;>
      cases h2 : mb.anyInconsistent (mb.decodedModel emptyModel urlParams model?) <;>
        simp [decodePure_eq, h1, h2]

/-- C9: `addParamBinder` throws (and leaves the registry untouched) when its
argument is not a `ParamBinder` instance and when the argument's
`urlParamName` collides with an already registered binder; otherwise it
appends the binder and returns the codec (the updated registry, no error) for
chaining. -/
theorem c9_addParamBinder_spec {M : Type} (mb : ModelBinder M) :
    ((mb.addParamBinder none).1 = mb ∧ (mb.addParamBinder none).2.isSome = true) ∧
    (∀ pb : ParamBinder M, (∃ pb' ∈ mb.paramBinders, pb'.urlParamName = pb.urlParamName) →
      (mb.addParamBinder (some pb)).1 = mb ∧
      (mb.addParamBinder (some pb)).2.isSome = true) ∧
    (∀ pb : ParamBinder M, (∀ pb' ∈ mb.paramBinders, pb'.urlParamName ≠ pb.urlParamName) →
      (mb.addParamBinder (some pb)).1.paramBinders = mb.paramBinders ++ [pb] ∧
      (mb.addParamBinder (some pb)).2 = none) := by
  refine ⟨⟨rfl, rfl⟩, ?_, ?_⟩
  · intro pb hdup
    have hany : mb.paramBinders.any (fun pb' => pb'.urlParamName == pb.urlParamName) = true := by
      rw [List.any_eq_true]
      obtain ⟨pb', hmem, he⟩ := hdup
      exact ⟨pb', hmem, by simp [he]⟩
    simp [ModelBinder.addParamBinder, hany]
  · intro pb hfresh
    have hany : mb.paramBinders.any (fun pb' => pb'.urlParamName == pb.urlParamName) = false := by
      rw [List.any_eq_false]
      intro pb' hmem
      simp [hfresh pb' hmem]
    simp [ModelBinder.addParamBinder, hany]

/-- C10: inside decode, `setToModel` is only ever invoked on the private
non-null working model (the clone of line 246 or the fresh record of line
244), so its `model must be a non-null object` branch is unreachable and
decode never fails, whatever the caller passed for `model`. -/
theorem c10_decode_setToModel_safe {M : Type} (mb : ModelBinder M) (emptyModel : M)
    (urlParams : Params) (model? : Option M) :
    (mb.getModelFromUrlParams emptyModel urlParams model?).isOk = true := by
  rw [getModelFromUrlParams_eq]
  rfl

/-- Witness for C2: with always-valid `A` and `B` valid only at `5`, decoding
`A=x, B=bad` keeps `A` at `x`, strips `B`, and returns no model. -/
theorem c2_invalid_keys_stripped_witness :
    mbAB.hasInvalidKey [("A", "x"), ("B", "bad")] = true ∧
    mbAB.getModelFromUrlParams [] [("A", "x"), ("B", "bad")] none =
      Except.ok { model? := none, newParams? := some [("A", "x")] } := by
  refine ⟨by decide, ?_⟩
  rw [c2_invalid_keys_stripped mbAB [] [("A", "x"), ("B", "bad")] none (by decide)]
  rfl

/-- Witness for C3: decoding `A=x, C=y` (both valid) against the
always-inconsistent binder `C` rewrites both registered keys to their
defaults and returns no model. -/
theorem c3_consistency_reset_witness :
    mbAC.getModelFromUrlParams [] [("A", "x"), ("C", "y")] none =
      Except.ok
        { model? := none, newParams? := some [("A", "defA"), ("C", "c0")] } ∧
    Params.get (mbAC.resetToDefaults [("A", "x"), ("C", "y")] [("A", "x"), ("C", "y")]) "A" =
      some "defA" := by
  have h := c3_consistency_reset mbAC [] [("A", "x"), ("C", "y")] none
    (by decide) (by decide) (by decide)
  refine ⟨?_, ?_⟩
  · rw [h.1]
    rfl
  · have := h.2 binderA (List.mem_cons_self _ _)
    simpa using this

/-- Witness for C9: a non-binder argument and a duplicate name are rejected
with the registry untouched, and a fresh name is appended. -/
theorem c9_addParamBinder_spec_witness :
    ((mbAB.addParamBinder none).1 = mbAB ∧ (mbAB.addParamBinder none).2.isSome = true) ∧
    ((mbAB.addParamBinder (some binderA)).1 = mbAB ∧
      (mbAB.addParamBinder (some binderA)).2.isSome = true) ∧
    ((mbAB.addParamBinder (some binderC)).1.paramBinders = [binderA, binderB, binderC] ∧
      (mbAB.addParamBinder (some binderC)).2 = none) := by
  have h := c9_addParamBinder_spec mbAB
  refine ⟨h.1, h.2.1 binderA ⟨binderA, List.mem_cons_self _ _, rfl⟩, ?_, ?_⟩
  · rw [(h.2.2 binderC ?_).1]
    · rfl
    · intro pb' hmem he
      rcases List.mem_cons.mp hmem with h1 | h1
      · subst h1
        exact absurd he (by decide)
      · rcases List.mem_cons.mp h1 with h2 | h2
        · subst h2
          exact absurd he (by decide)
        · cases h2
  · refine (h.2.2 binderC ?_).2
    intro pb' hmem he
    rcases List.mem_cons.mp hmem with h1 | h1
    · subst h1
      exact absurd he (by decide)
    · rcases List.mem_cons.mp h1 with h2 | h2
      · subst h2
        exact absurd he (by decide)
      · cases h2

/-! Read-preservation lemmas: a binder's read accessor is unaffected by the
decode writes of other binders, provided the binders write disjoint parts of
the model. -/

theorem read_absentStep_ne {M : Type} (mb : ModelBinder M) (urlParams : Params)
    (pb : ParamBinder M)
    (hdisj : ∀ pb' ∈ mb.paramBinders, pb'.urlParamName ≠ pb.urlParamName →
      ∀ m v, pb.getUrlParamValueFunc (pb'.setValueToModelFunc m v) = pb.getUrlParamValueFunc m)
    (k : String) (hk : k ≠ pb.urlParamName) (m : M) :
    pb.getUrlParamValueFunc (mb.absentStep urlParams m k) = pb.getUrlParamValueFunc m := by
  unfold ModelBinder.absentStep
  cases hf : mb.paramBinders.find? (fun x => x.urlParamName == k) with
  | none => rfl
  | some pb' =>
    have hmem : pb' ∈ mb.paramBinders := List.mem_of_find?_eq_some hf
    have hname : pb'.urlParamName = k := by simpa using List.find?_some hf
    exact hdisj pb' hmem (hname ▸ hk) m _

theorem read_absentFold_ne {M : Type} (mb : ModelBinder M) (urlParams : Params)
    (pb : ParamBinder M)
    (hdisj : ∀ pb' ∈ mb.paramBinders, pb'.urlParamName ≠ pb.urlParamName →
      ∀ m v, pb.getUrlParamValueFunc (pb'.setValueToModelFunc m v) = pb.getUrlParamValueFunc m) :
    ∀ (K : List String), (∀ k ∈ K, k ≠ pb.urlParamName) → ∀ (m : M),
      pb.getUrlParamValueFunc (K.foldl (mb.absentStep urlParams) m) =
        pb.getUrlParamValueFunc m := by
  intro K
  induction K with
  | nil => intro _ m; rfl
  | cons k K ih =>
    intro h m
    rw [List.foldl_cons, ih (fun k' hk' => h k' (List.mem_cons_of_mem _ hk')),
      read_absentStep_ne mb urlParams pb hdisj k (h k (List.mem_cons_self _ _)) m]

theorem read_presentModelStep_ne {M : Type} (mb : ModelBinder M) (urlParams : Params)
    (pb : ParamBinder M)
    (hdisj : ∀ pb' ∈ mb.paramBinders, pb'.urlParamName ≠ pb.urlParamName →
      ∀ m v, pb.getUrlParamValueFunc (pb'.setValueToModelFunc m v) = pb.getUrlParamValueFunc m)
    (k : String) (hk : k ≠ pb.urlParamName) (m : M) :
    pb.getUrlParamValueFunc (mb.presentModelStep urlParams m k) = pb.getUrlParamValueFunc m := by
  unfold ModelBinder.presentModelStep
  cases hf : mb.paramBinders.find? (fun x => x.urlParamName == k) with
  | none => rfl
  | some pb' =>
    have hmem : pb' ∈ mb.paramBinders := List.mem_of_find?_eq_some hf
    have hname : pb'.urlParamName = k := by simpa using List.find?_some hf
    cases hv : pb'.isUrlParamValid ((Params.get urlParams k).getD "") (some urlParams) with
    | false => simp [hv]
    | true => simp [hv, hdisj pb' hmem (hname ▸ hk) m]

theorem read_presentModelFold_ne {M : Type} (mb : ModelBinder M) (urlParams : Params)
    (pb : ParamBinder M)
    (hdisj : ∀ pb' ∈ mb.paramBinders, pb'.urlParamName ≠ pb.urlParamName →
      ∀ m v, pb.getUrlParamValueFunc (pb'.setValueToModelFunc m v) = pb.getUrlParamValueFunc m) :
    ∀ (K : List String), (∀ k ∈ K, k ≠ pb.urlParamName) → ∀ (m : M),
      pb.getUrlParamValueFunc (K.foldl (mb.presentModelStep urlParams) m) =
        pb.getUrlParamValueFunc m := by
  intro K
  induction K with
  | nil => intro _ m; rfl
  | cons k K ih =>
    intro h m
    rw [List.foldl_cons, ih (fun k' hk' => h k' (List.mem_cons_of_mem _ hk')),
      read_presentModelStep_ne mb urlParams pb hdisj k (h k (List.mem_cons_self _ _)) m]

theorem read_decodeAbsent_of_absent {M : Type} (mb : ModelBinder M) (urlParams : Params)
    (pb : ParamBinder M)
    (hnd : (mb.paramBinders.map (fun x => x.urlParamName)).Nodup)
    (hmem : pb ∈ mb.paramBinders)
    (habsent : pb.urlParamName ∉ Params.keys urlParams)
    (hrw : ∀ m v, pb.getUrlParamValueFunc (pb.setValueToModelFunc m v) = some v)
    (hdisj : ∀ pb' ∈ mb.paramBinders, pb'.urlParamName ≠ pb.urlParamName →
      ∀ m v, pb.getUrlParamValueFunc (pb'.setValueToModelFunc m v) = pb.getUrlParamValueFunc m)
    (m : M) :
    pb.getUrlParamValueFunc (mb.decodeAbsent urlParams m) =
      some (pb.getDefaultParamValue (some urlParams)) := by
  unfold ModelBinder.decodeAbsent
  have hinmap : pb.urlParamName ∈ mb.paramBinders.map (fun x => x.urlParamName) :=
    List.mem_map_of_mem _ hmem
  have hinmissing : pb.urlParamName ∈
      (mb.paramBinders.map (fun x => x.urlParamName)).filter
        (fun key => !((Params.keys urlParams).contains key)) := by
    rw [List.mem_filter]
    refine ⟨hinmap, ?_⟩
    simp [List.elem_iff, habsent]
  obtain ⟨l₁, l₂, hsplit⟩ := List.append_of_mem hinmissing
  have hndm : ((mb.paramBinders.map (fun x => x.urlParamName)).filter
      (fun key => !((Params.keys urlParams).contains key))).Nodup := hnd.filter _
  rw [hsplit] at hndm
  have hnotl2 : pb.urlParamName ∉ l₂ := by
    have := hndm.of_append_right
    rw [List.nodup_cons] at this
    exact this.1
  rw [hsplit, List.foldl_append, List.foldl_cons]
  rw [read_absentFold_ne mb urlParams pb hdisj l₂
    (fun k hk hke => hnotl2 (hke ▸ hk))]
  unfold ModelBinder.absentStep
  rw [find?_eq_self_of_nodup mb.paramBinders pb hnd hmem]
  exact hrw _ _

/-- C7: a registered binder whose name is absent from the input ends up with
its parameter-set-aware default (computed against the input set) in its model
field — readable back through its accessor when binders write disjoint fields
— and absence alone never sets the error flag or withholds the model: the
model is withheld only when some present key is invalid or some consistency
check fails. -/
theorem c7_absent_key_defaults {M : Type} (mb : ModelBinder M) (emptyModel : M)
    (urlParams : Params) (model? : Option M) (pb : ParamBinder M)
    (hnd : (mb.paramBinders.map (fun x => x.urlParamName)).Nodup)
    (hmem : pb ∈ mb.paramBinders)
    (habsent : pb.urlParamName ∉ Params.keys urlParams)
    (hrw : ∀ m v, pb.getUrlParamValueFunc (pb.setValueToModelFunc m v) = some v)
    (hdisj : ∀ pb' ∈ mb.paramBinders, pb'.urlParamName ≠ pb.urlParamName →
      ∀ m v, pb.getUrlParamValueFunc (pb'.setValueToModelFunc m v) = pb.getUrlParamValueFunc m) :
    pb.getUrlParamValueFunc (mb.decodedModel emptyModel urlParams model?) =
      some (pb.getDefaultParamValue (some urlParams)) ∧
    (∀ r, mb.getModelFromUrlParams emptyModel urlParams model? = Except.ok r →
      r.model? = none →
      mb.hasInvalidKey urlParams = true ∨
        mb.anyInconsistent (mb.decodedModel emptyModel urlParams model?) = true) := by
  constructor
  · rw [decodedModel_eq,
      read_presentModelFold_ne mb urlParams pb hdisj (Params.keys urlParams)
        (fun k hk hke => habsent (hke ▸ hk))]
    exact read_decodeAbsent_of_absent mb urlParams pb hnd hmem habsent hrw hdisj _
  · intro r hr hnone
    rw [getModelFromUrlParams_eq] at hr
    have hr' : mb.decodePure emptyModel urlParams model? = r := by
      injection hr
    cases h1 : mb.hasInvalidKey urlParams with
    | true => exact Or.inl rfl
    | false =>
      cases h2 : mb.anyInconsistent (mb.decodedModel emptyModel urlParams model?) with
      | true => exact Or.inr rfl
      | false =>
        exfalso
        rw [decodePure_eq, h1, h2] at hr'
        simp only [if_false, Bool.false_eq_true] at hr'
        rw [← hr'] at hnone
        simp at hnone

/-- Witness for C7: with registry `A`,`C`, binder `A` absent from `C=y` is
assigned its default `defA`; and on the same input (all keys valid, `C`
inconsistent) the model is withheld because of the consistency check, not the
absence. -/
theorem c7_absent_key_defaults_witness :
    binderA.getUrlParamValueFunc (mbAC.decodedModel [] [("C", "y")] none) = some "defA" ∧
    (mbAC.hasInvalidKey [("C", "y")] = true ∨
      mbAC.anyInconsistent (mbAC.decodedModel [] [("C", "y")] none) = true) := by
  have hdisj : ∀ pb' ∈ mbAC.paramBinders, pb'.urlParamName ≠ binderA.urlParamName →
      ∀ m v, binderA.getUrlParamValueFunc (pb'.setValueToModelFunc m v) =
        binderA.getUrlParamValueFunc m := by
    intro pb' hmem hne m v
    rcases List.mem_cons.mp hmem with h1 | h1
    · subst h1
      exact absurd rfl hne
    · rcases List.mem_cons.mp h1 with h2 | h2
      · subst h2
        simp [binderA, binderC, mkBinder, Params.get_set]
      · cases h2
  have h := c7_absent_key_defaults mbAC [] [("C", "y")] none binderA
    (by decide) (List.mem_cons_self _ _) (by decide)
    (fun m v => by simp [binderA, mkBinder, Params.get_set]) hdisj
  refine ⟨h.1, ?_⟩
  exact h.2 { model? := none, newParams? := some [("C", "c0"), ("A", "defA")] } (by rfl) rfl

/-! Characterisation of the encode fold. -/

theorem encodeFold_empty_of_defaults {M : Type} (model : M) :
    ∀ (l : List (ParamBinder M)),
      (∀ pb ∈ l, pb.getUrlParamValue model = pb.getDefaultParamValue (some Params.empty)) →
      encodeFold l model Params.empty = Params.empty := by
  intro l
  induction l with
  | nil => intro _; rfl
  | cons b rest ih =>
    intro h
    unfold encodeFold at ih ⊢
    rw [List.foldl_cons]
    have hb := h b (List.mem_cons_self _ _)
    unfold encodeStep
    rw [hb]
    simp only [bne_self_eq_false, Bool.false_eq_true, if_false]
    exact ih (fun pb hpb => h pb (List.mem_cons_of_mem _ hpb))

theorem encodeFold_get_not_mem {M : Type} (model : M) :
    ∀ (l : List (ParamBinder M)) (up : Params) (a : String),
      (∀ pb ∈ l, pb.urlParamName ≠ a) →
      Params.get (encodeFold l model up) a = Params.get up a := by
  intro l
  induction l with
  | nil => intro up a _; rfl
  | cons b rest ih =>
    intro up a h
    rw [show encodeFold (b :: rest) model up =
      encodeFold rest model (encodeStep model up b) from rfl]
    rw [ih _ a (fun pb hpb => h pb (List.mem_cons_of_mem _ hpb))]
    unfold encodeStep
    cases hc : (b.getUrlParamValue model != b.getDefaultParamValue (some up)) with
    | false =>
      have he : b.getUrlParamValue model = b.getDefaultParamValue (some up) := by
        simpa using hc
      simp [he]
    | true =>
      simp only [hc, if_true]
      rw [Params.get_set, if_neg]
      exact fun he => h b (List.mem_cons_self _ _) (he ▸ rfl)

theorem encodeFold_get_split {M : Type} (model : M) (l₁ : List (ParamBinder M))
    (pb : ParamBinder M) (l₂ : List (ParamBinder M))
    (hnd : (((l₁ ++ pb :: l₂)).map (fun x => x.urlParamName)).Nodup) :
    Params.get (encodeFold (l₁ ++ pb :: l₂) model Params.empty) pb.urlParamName =
      if pb.getUrlParamValue model !=
          pb.getDefaultParamValue (some (encodeFold l₁ model Params.empty)) then
        some (pb.getUrlParamValue model)
      else none := by
  rw [List.map_append, List.map_cons, List.nodup_append] at hnd
  have hnotl1 : pb.urlParamName ∉ l₁.map (fun x => x.urlParamName) := by
    intro hmem
    exact hnd.2.2 hmem (List.mem_cons_self _ _)
  have hnotl2 : pb.urlParamName ∉ l₂.map (fun x => x.urlParamName) :=
    (List.nodup_cons.mp hnd.2.1).1
  unfold encodeFold
  rw [List.foldl_append, List.foldl_cons]
  rw [show ∀ (up : Params), List.foldl (encodeStep model) up l₂ = encodeFold l₂ model up
    from fun _ => rfl]
  rw [encodeFold_get_not_mem model l₂ _ pb.urlParamName
    (fun pb' hpb' he => hnotl2 (he ▸ List.mem_map_of_mem _ hpb'))]
  rw [show List.foldl (encodeStep model) Params.empty l₁ = encodeFold l₁ model Params.empty
    from rfl]
  unfold encodeStep
  cases hc : (pb.getUrlParamValue model !=
      pb.getDefaultParamValue (some (encodeFold l₁ model Params.empty))) with
  | true =>
    simp only [hc, if_true]
    rw [Params.get_set, if_pos rfl]
  | false =>
    simp only [hc, Bool.false_eq_true, if_false]
    rw [encodeFold_get_not_mem model l₁ _ pb.urlParamName
      (fun pb' hpb' he => hnotl1 (he ▸ List.mem_map_of_mem _ hpb'))]
    rfl

/-- C6: encoding a model in which every registered binder's read value equals
its default yields an empty parameter set; more generally, with no supplied
set, a binder's key appears in the output exactly when its read value differs
from its default computed against the in-progress parameter set (the set
built by the binders registered before it), and then it carries the read
value. -/
theorem c6_default_suppression {M : Type} (mb : ModelBinder M) (model : M) :
    ((∀ pb ∈ mb.paramBinders,
        pb.getUrlParamValue model = pb.getDefaultParamValue (some Params.empty)) →
      mb.getUrlParamsFromModel (some model) none = Except.ok Params.empty) ∧
    (∀ l₁ (pb : ParamBinder M) l₂, mb.paramBinders = l₁ ++ pb :: l₂ →
      (mb.paramBinders.map (fun x => x.urlParamName)).Nodup →
      ∀ out, mb.getUrlParamsFromModel (some model) none = Except.ok out →
        Params.get out pb.urlParamName =
          if pb.getUrlParamValue model !=
              pb.getDefaultParamValue (some (encodeFold l₁ model Params.empty)) then
            some (pb.getUrlParamValue model)
          else none) := by
  constructor
  · intro h
    rw [getUrlParamsFromModel_eq]
    rw [show (none : Option Params).getD Params.empty = Params.empty from rfl]
    rw [encodeFold_empty_of_defaults model mb.paramBinders h]
  · intro l₁ pb l₂ hsplit hnd out hout
    rw [getUrlParamsFromModel_eq] at hout
    have : encodeFold mb.paramBinders model Params.empty = out := by injection hout
    rw [← this, hsplit]
    rw [hsplit] at hnd
    exact encodeFold_get_split model l₁ pb l₂ hnd

/-- Witness for C6: a model holding both defaults encodes to the empty set,
and binder `A`'s key is absent from the output exactly as the
characterisation states. -/
theorem c6_default_suppression_witness :
    mbAB.getUrlParamsFromModel (some [("A", "defA"), ("B", "5")]) none =
      Except.ok Params.empty ∧
    Params.get Params.empty binderA.urlParamName = none := by
  have h := c6_default_suppression mbAB [("A", "defA"), ("B", "5")]
  have h1 := h.1 (by
    intro pb hpb
    rcases List.mem_cons.mp hpb with h1 | h1
    · subst h1
      rfl
    · rcases List.mem_cons.mp h1 with h2 | h2
      · subst h2
        rfl
      · cases h2)
  refine ⟨h1, ?_⟩
  have h2 := h.2 [] binderA [binderB] rfl (by decide) Params.empty h1
  simpa using h2

/-! Frame lemmas for the heap-instrumented operations: which objects each
operation writes to. -/

theorem exceptErrorBind {ε α β : Type} (e : ε) (f : α → Except ε β) :
    ((Except.error e : Except ε α) >>= f) = Except.error e := rfl

theorem foldlM_invariant {σ α : Type} (P : σ → Prop) (fE : σ → α → Except String σ)
    (hstep : ∀ s a s', P s → fE s a = Except.ok s' → P s') :
    ∀ (l : List α) (s s' : σ), P s → l.foldlM fE s = Except.ok s' → P s' := by
  intro l
  induction l with
  | nil =>
    intro s s' hP hfold
    rw [List.foldlM_nil] at hfold
    injection hfold with h
    exact h ▸ hP
  | cons a l ih =>
    intro s s' hP hfold
    rw [List.foldlM_cons] at hfold
    cases hfa : fE s a with
    | error e =>
      rw [hfa, exceptErrorBind] at hfold
      exact Except.noConfusion hfold
    | ok s₁ =>
      rw [hfa, exceptOkBind] at hfold
      exact ih s₁ s' (hstep s a s₁ hP hfa) hfold

theorem encodeHeapFold_frame {M : Type} (model : M) (r : Nat) (i : Nat) (hi : r ≠ i) :
    ∀ (l : List (ParamBinder M)) (hp : PHeap),
      (l.foldl (encodeHeapStep model r) hp)[i]? = hp[i]? := by
  intro l
  induction l with
  | nil => intro hp; rfl
  | cons b rest ih =>
    intro hp
    rw [List.foldl_cons, ih]
    simp only [encodeHeapStep]
    split
    · exact List.getElem?_set_ne hi
    · rfl

theorem setDefaultsHeapFold_frame {M : Type} (urlParams : Params) (newRef i : Nat)
    (hi : newRef ≠ i) :
    ∀ (l : List (ParamBinder M)) (hp : PHeap),
      (l.foldl (fun (hp : PHeap) (pb : ParamBinder M) =>
        hp.set newRef (Params.set (hp.getD newRef Params.empty) pb.urlParamName
          (pb.getDefaultParamValue (some urlParams)))) hp)[i]? = hp[i]? := by
  intro l
  induction l with
  | nil => intro hp; rfl
  | cons b rest ih =>
    intro hp
    rw [List.foldl_cons, ih]
    exact List.getElem?_set_ne hi

theorem absentHeapFold_frame {M : Type} (mb : ModelBinder M) (urlParams : Params)
    (mRef : Nat) (j : Nat) (hj : mRef ≠ j) (K : List String) (hm hm' : MHeap M)
    (hfold : K.foldlM (mb.absentHeapStep urlParams mRef) hm = Except.ok hm') :
    hm'[j]? = hm[j]? := by
  refine foldlM_invariant (fun h => h[j]? = hm[j]?) _ ?_ K hm hm' rfl hfold
  intro s a s' hP hstep
  unfold ModelBinder.absentHeapStep at hstep
  split at hstep
  · injection hstep with h
    exact h ▸ hP
  · rename_i pb hf
    cases hs : pb.setToModel s[mRef]? (pb.getDefaultParamValue (some urlParams)) with
    | error e =>
      rw [hs, exceptErrorBind] at hstep
      exact Except.noConfusion hstep
    | ok m =>
      rw [hs, exceptOkBind] at hstep
      injection hstep with h
      rw [← h]
      exact (List.getElem?_set_ne hj).trans hP

theorem bindOk_elim {ε α β : Type} (A : Except ε α) (f : α → Except ε β) (b : β)
    (h : (A >>= f) = Except.ok b) : ∃ a, A = Except.ok a ∧ f a = Except.ok b := by
  cases A with
  | error e => rw [exceptErrorBind] at h; exact Except.noConfusion h
  | ok a => exact ⟨a, rfl, by rw [exceptOkBind] at h; exact h⟩

theorem presentHeapFold_frame_p {M : Type} (mb : ModelBinder M) (urlParams : Params)
    (newRef mRef : Nat) (i : Nat) (hi : newRef ≠ i) (K : List String)
    (st st' : Bool × PHeap × MHeap M)
    (hfold : K.foldlM (mb.presentHeapStep urlParams newRef mRef) st = Except.ok st') :
    st'.2.1[i]? = st.2.1[i]? := by
  refine foldlM_invariant (fun s => s.2.1[i]? = st.2.1[i]?) _ ?_ K st st' rfl hfold
  intro s a s' hP hstep
  unfold ModelBinder.presentHeapStep at hstep
  split at hstep
  · injection hstep with h
    exact h ▸ hP
  · rename_i pb hf
    split at hstep
    · injection hstep with h
      rw [← h]
      exact (List.getElem?_set_ne hi).trans hP
    · cases hs : pb.setToModel s.2.2[mRef]?
          (pb.parseUrlParamValue ((Params.get urlParams a).getD "") (some urlParams)) with
      | error e =>
        simp only [hs, exceptErrorBind] at hstep
        exact Except.noConfusion hstep
      | ok m =>
        simp only [hs, exceptOkBind] at hstep
        injection hstep with h
        rw [← h]
        exact hP

theorem presentHeapFold_frame_m {M : Type} (mb : ModelBinder M) (urlParams : Params)
    (newRef mRef : Nat) (j : Nat) (hj : mRef ≠ j) (K : List String)
    (st st' : Bool × PHeap × MHeap M)
    (hfold : K.foldlM (mb.presentHeapStep urlParams newRef mRef) st = Except.ok st') :
    st'.2.2[j]? = st.2.2[j]? := by
  refine foldlM_invariant (fun s => s.2.2[j]? = st.2.2[j]?) _ ?_ K st st' rfl hfold
  intro s a s' hP hstep
  unfold ModelBinder.presentHeapStep at hstep
  split at hstep
  · injection hstep with h
    exact h ▸ hP
  · rename_i pb hf
    split at hstep
    · injection hstep with h
      rw [← h]
      exact hP
    · cases hs : pb.setToModel s.2.2[mRef]?
          (pb.parseUrlParamValue ((Params.get urlParams a).getD "") (some urlParams)) with
      | error e =>
        simp only [hs, exceptErrorBind] at hstep
        exact Except.noConfusion hstep
      | ok m =>
        simp only [hs, exceptOkBind] at hstep
        injection hstep with h
        rw [← h]
        exact (List.getElem?_set_ne hj).trans hP

/-- Counterexample to C1 as stated: `getUrlParamsFromModel` with a supplied
parameter set writes into the caller's own object (line 331 aliases, it does
not copy).  Encoding the model `a=1` (binder default `0`) with the caller's
empty parameter set supplied mutates that object from `[]` to `a=1`. -/
theorem c1_caller_set_mutated_counterexample :
    mbE.encodeHeap [[("a", "1")]] [[]] (some 0) (some 0) =
      Except.ok (0, [[("a", "1")]]) ∧
    ([[("a", "1")]] : PHeap)[0]? ≠ ([[]] : PHeap)[0]? := by
  refine ⟨rfl, by decide⟩

/-- C1 (amended): decode mutates neither the caller's parameter set nor the
caller's model — all its writes land on the two fresh cells (the
`structuredClone`/empty working model of lines 243-247 and the `newParams`
copy of line 248); encode never writes any model object and, with no
parameter set supplied, writes only to a fresh set which it returns; but
when the caller supplies a parameter set, encode returns that very object
and writes only to it, so the supplied set is mutated in place while every
other object is preserved. -/
theorem c1_mutation_frame {M : Type} (mb : ModelBinder M) (emptyModel : M) :
    (∀ (hp : PHeap) (hm : MHeap M) (urlRef : Nat) (modelRef? : Option Nat)
        (hp' : PHeap) (hm' : MHeap M) (res : ModelParseResult M),
      mb.decodeHeap emptyModel hp hm urlRef modelRef? = Except.ok (hp', hm', res) →
      (∀ i, i < hp.length → hp'[i]? = hp[i]?) ∧ (∀ j, j < hm.length → hm'[j]? = hm[j]?)) ∧
    (∀ (hm : MHeap M) (hp : PHeap) (modelRef? : Option Nat) (r : Nat) (hp' : PHeap),
      mb.encodeHeap hm hp modelRef? none = Except.ok (r, hp') →
      r = hp.length ∧ ∀ i, i < hp.length → hp'[i]? = hp[i]?) ∧
    (∀ (hm : MHeap M) (hp : PHeap) (modelRef? : Option Nat) (r r' : Nat) (hp' : PHeap),
      mb.encodeHeap hm hp modelRef? (some r) = Except.ok (r', hp') →
      r' = r ∧ ∀ i, i ≠ r → hp'[i]? = hp[i]?) := by
  refine ⟨?_, ?_, ?_⟩
  · intro hp hm urlRef modelRef? hp' hm' res h
    unfold ModelBinder.decodeHeap at h
    simp only [exceptPureEq, exceptOkBind] at h
    obtain ⟨hmB, hf1, h⟩ := bindOk_elim _ _ _ h
    obtain ⟨st, hf2, h⟩ := bindOk_elim _ _ _ h
    have hpframe : ∀ i, i < hp.length → st.2.1[i]? = hp[i]? := by
      intro i hilt
      have hine : hp.length ≠ i := fun he => absurd (he ▸ hilt) (Nat.lt_irrefl _)
      rw [presentHeapFold_frame_p mb _ hp.length hm.length i hine _ _ _ hf2]
      exact List.getElem?_append_left hilt
    have hmframe : ∀ j, j < hm.length → st.2.2[j]? = hm[j]? := by
      intro j hjlt
      have hjne : hm.length ≠ j := fun he => absurd (he ▸ hjlt) (Nat.lt_irrefl _)
      rw [presentHeapFold_frame_m mb _ hp.length hm.length j hjne _ _ _ hf2]
      rw [absentHeapFold_frame mb _ hm.length j hjne _ _ _ hf1]
      exact List.getElem?_append_left hjlt
    split at h
    · injection h with h
      rw [Prod.mk.injEq, Prod.mk.injEq] at h
      obtain ⟨h1, h2, h3⟩ := h
      refine ⟨?_, ?_⟩
      · intro i hilt
        rw [← h1]
        exact hpframe i hilt
      · intro j hjlt
        rw [← h2]
        exact hmframe j hjlt
    · split at h
      · injection h with h
        rw [Prod.mk.injEq, Prod.mk.injEq] at h
        obtain ⟨h1, h2, h3⟩ := h
        refine ⟨?_, ?_⟩
        · intro i hilt
          rw [← h1]
          have hine : hp.length ≠ i := fun he => absurd (he ▸ hilt) (Nat.lt_irrefl _)
          rw [setDefaultsHeapFold_frame _ hp.length i hine]
          exact hpframe i hilt
        · intro j hjlt
          rw [← h2]
          exact hmframe j hjlt
      · injection h with h
        rw [Prod.mk.injEq, Prod.mk.injEq] at h
        obtain ⟨h1, h2, h3⟩ := h
        refine ⟨?_, ?_⟩
        · intro i hilt
          rw [← h1]
          exact hpframe i hilt
        · intro j hjlt
          rw [← h2]
          exact hmframe j hjlt
  · intro hm hp modelRef? r hp' h
    unfold ModelBinder.encodeHeap at h
    cases hmv : modelRef?.bind (fun mr => hm[mr]?) with
    | none =>
      rw [hmv] at h
      exact Except.noConfusion h
    | some model =>
      rw [hmv] at h
      injection h with h
      rw [Prod.mk.injEq] at h
      obtain ⟨h1, h2⟩ := h
      refine ⟨h1.symm, ?_⟩
      intro i hilt
      have hine : hp.length ≠ i := fun he => absurd (he ▸ hilt) (Nat.lt_irrefl _)
      rw [← h2]
      rw [encodeHeapFold_frame model hp.length i hine]
      exact List.getElem?_append_left hilt
  · intro hm hp modelRef? r r' hp' h
    unfold ModelBinder.encodeHeap at h
    cases hmv : modelRef?.bind (fun mr => hm[mr]?) with
    | none =>
      rw [hmv] at h
      exact Except.noConfusion h
    | some model =>
      rw [hmv] at h
      injection h with h
      rw [Prod.mk.injEq] at h
      obtain ⟨h1, h2⟩ := h
      refine ⟨h1.symm, ?_⟩
      intro i hine
      rw [← h2]
      exact encodeHeapFold_frame model r i (fun he => hine he.symm) mb.paramBinders hp

/-- Witness for the amended C1: concrete decode and encode calls whose
caller-visible objects are preserved (decode: both; encode: every object but
the supplied output set). -/
theorem c1_mutation_frame_witness :
    (([[("a", "x")], [("a", "x")]] : PHeap)[0]? = ([[("a", "x")]] : PHeap)[0]? ∧
      ([[("z", "1")], [("z", "1"), ("a", "x")]] : MHeap Params)[0]? =
        ([[("z", "1")]] : MHeap Params)[0]?) ∧
    ([[("x", "y")], [("a", "1")]] : PHeap)[0]? = ([[("x", "y")]] : PHeap)[0]? ∧
    ([[("a", "1")], [("q", "w")]] : PHeap)[1]? = ([[], [("q", "w")]] : PHeap)[1]? := by
  have h := c1_mutation_frame mbE ([] : Params)
  refine ⟨⟨?_, ?_⟩, ?_, ?_⟩
  · exact (h.1 [[("a", "x")]] [[("z", "1")]] 0 (some 0)
      [[("a", "x")], [("a", "x")]] [[("z", "1")], [("z", "1"), ("a", "x")]]
      { model? := some [("z", "1"), ("a", "x")], newParams? := none } rfl).1 0 (by decide)
  · exact (h.1 [[("a", "x")]] [[("z", "1")]] 0 (some 0)
      [[("a", "x")], [("a", "x")]] [[("z", "1")], [("z", "1"), ("a", "x")]]
      { model? := some [("z", "1"), ("a", "x")], newParams? := none } rfl).2 0 (by decide)
  · exact (h.2.1 [[("a", "1")]] [[("x", "y")]] (some 0) 1
      [[("x", "y")], [("a", "1")]] rfl).2 0 (by decide)
  · exact (h.2.2 [[("a", "1")]] [[], [("q", "w")]] (some 0) 0 0
      [[("a", "1")], [("q", "w")]] rfl).2 1 (by decide)

/-! Lemmas about appending one fresh, unregistered entry to the input
parameter set. -/

theorem get_append_single_ne (p : Params) (k v a : String) (ha : a ≠ k) :
    Params.get (p ++ [(k, v)]) a = Params.get p a := by
  rw [Params.get_append]
  cases hpa : Params.get p a with
  | some w => rfl
  | none =>
    have : ¬k = a := fun h => ha h.symm
    simp [Params.get_cons, Params.get, this]

theorem get_append_single_eq (p : Params) (k v : String) (hfresh : Params.get p k = none) :
    Params.get (p ++ [(k, v)]) k = some v := by
  rw [Params.get_append, hfresh]
  simp [Params.get_cons]

theorem get_filter_none (q : String × String → Bool) :
    ∀ (p : Params) (k : String), Params.get p k = none →
      Params.get (p.filter q) k = none := by
  intro p
  induction p with
  | nil => intro k _; rfl
  | cons e rest ih =>
    intro k h
    rw [Params.get_cons] at h
    cases hek : e.1 == k with
    | true => rw [hek] at h; simp at h
    | false =>
      rw [hek] at h
      simp only [Bool.false_eq_true, if_false] at h
      rw [List.filter_cons]
      cases hq : q e with
      | true => simp only [hq, if_true]; rw [Params.get_cons, hek]; simpa using ih k h
      | false => simp only [hq, Bool.false_eq_true, if_false]; exact ih k h

theorem foldl_congr_mem {α σ : Type} (f g : σ → α → σ) :
    ∀ (l : List α) (s : σ), (∀ s a, a ∈ l → f s a = g s a) →
      l.foldl f s = l.foldl g s := by
  intro l
  induction l with
  | nil => intro s _; rfl
  | cons a l ih =>
    intro s h
    rw [List.foldl_cons, List.foldl_cons, h s a (List.mem_cons_self _ _)]
    exact ih _ (fun s' a' ha' => h s' a' (List.mem_cons_of_mem _ ha'))

theorem names_ne_of_find?_none {M : Type} (mb : ModelBinder M) (k : String)
    (hunreg : mb.paramBinders.find? (fun pb => pb.urlParamName == k) = none) :
    ∀ pb ∈ mb.paramBinders, pb.urlParamName ≠ k := by
  intro pb hpb he
  have := List.find?_eq_none.mp hunreg pb hpb
  simp [he] at this

theorem keys_append_single (p : Params) (k v : String) :
    Params.keys (p ++ [(k, v)]) = Params.keys p ++ [k] := by
  simp [Params.keys]

theorem c8_isInvalidKey_eq {M : Type} (mb : ModelBinder M) (urlParams : Params)
    (k v : String)
    (hunreg : mb.paramBinders.find? (fun pb => pb.urlParamName == k) = none)
    (hv : ∀ pb ∈ mb.paramBinders, ∀ s,
      pb.isUrlParamValueValidFunc s (some (urlParams ++ [(k, v)])) =
        pb.isUrlParamValueValidFunc s (some urlParams)) :
    ∀ a, mb.isInvalidKey (urlParams ++ [(k, v)]) a = mb.isInvalidKey urlParams a := by
  intro a
  unfold ModelBinder.isInvalidKey
  by_cases hak : a = k
  · subst hak
    rw [hunreg]
  · cases hf : mb.paramBinders.find? (fun pb => pb.urlParamName == a) with
    | none => rfl
    | some pb =>
      have hmem := List.mem_of_find?_eq_some hf
      show (!(pb.isUrlParamValid ((Params.get (urlParams ++ [(k, v)]) a).getD "")
          (some (urlParams ++ [(k, v)])))) =
        (!(pb.isUrlParamValid ((Params.get urlParams a).getD "") (some urlParams)))
      unfold ParamBinder.isUrlParamValid
      rw [get_append_single_ne _ _ _ _ hak, hv pb hmem]

theorem c8_hasInvalidKey_eq {M : Type} (mb : ModelBinder M) (urlParams : Params)
    (k v : String)
    (hunreg : mb.paramBinders.find? (fun pb => pb.urlParamName == k) = none)
    (hv : ∀ pb ∈ mb.paramBinders, ∀ s,
      pb.isUrlParamValueValidFunc s (some (urlParams ++ [(k, v)])) =
        pb.isUrlParamValueValidFunc s (some urlParams)) :
    mb.hasInvalidKey (urlParams ++ [(k, v)]) = mb.hasInvalidKey urlParams := by
  unfold ModelBinder.hasInvalidKey
  rw [keys_append_single, List.any_append,
    funext (c8_isInvalidKey_eq mb urlParams k v hunreg hv)]
  have hk : mb.isInvalidKey urlParams k = false := by
    unfold ModelBinder.isInvalidKey
    rw [hunreg]
  simp [hk]

theorem c8_absentStep_eq {M : Type} (mb : ModelBinder M) (urlParams : Params)
    (k v : String)
    (hd : ∀ pb ∈ mb.paramBinders,
      pb.defaultParamValue (some (urlParams ++ [(k, v)])) =
        pb.defaultParamValue (some urlParams)) :
    ∀ (m : M) (key : String),
      mb.absentStep (urlParams ++ [(k, v)]) m key = mb.absentStep urlParams m key := by
  intro m key
  unfold ModelBinder.absentStep
  cases hf : mb.paramBinders.find? (fun pb => pb.urlParamName == key) with
  | none => rfl
  | some pb =>
    have hmem := List.mem_of_find?_eq_some hf
    show pb.setValueToModelFunc m (pb.getDefaultParamValue (some (urlParams ++ [(k, v)]))) =
      pb.setValueToModelFunc m (pb.getDefaultParamValue (some urlParams))
    unfold ParamBinder.getDefaultParamValue
    rw [hd pb hmem]

theorem c8_decodeAbsent_eq {M : Type} (mb : ModelBinder M) (urlParams : Params)
    (k v : String)
    (hunreg : mb.paramBinders.find? (fun pb => pb.urlParamName == k) = none)
    (hd : ∀ pb ∈ mb.paramBinders,
      pb.defaultParamValue (some (urlParams ++ [(k, v)])) =
        pb.defaultParamValue (some urlParams))
    (m : M) :
    mb.decodeAbsent (urlParams ++ [(k, v)]) m = mb.decodeAbsent urlParams m := by
  unfold ModelBinder.decodeAbsent
  have hlist :
      (mb.paramBinders.map (fun pb => pb.urlParamName)).filter
        (fun key => !((Params.keys (urlParams ++ [(k, v)])).contains key)) =
      (mb.paramBinders.map (fun pb => pb.urlParamName)).filter
        (fun key => !((Params.keys urlParams).contains key)) := by
    apply List.filter_congr
    intro key hkey
    obtain ⟨pb, hpb, hpbname⟩ := List.mem_map.mp hkey
    have hkne : key ≠ k := hpbname ▸ names_ne_of_find?_none mb k hunreg pb hpb
    rw [keys_append_single]
    simp [List.mem_append, hkne]
  rw [hlist]
  exact foldl_congr_mem _ _ _ m (fun m' key _ => c8_absentStep_eq mb urlParams k v hd m' key)

theorem c8_presentModelStep_eq {M : Type} (mb : ModelBinder M) (urlParams : Params)
    (k v : String)
    (hv : ∀ pb ∈ mb.paramBinders, ∀ s,
      pb.isUrlParamValueValidFunc s (some (urlParams ++ [(k, v)])) =
        pb.isUrlParamValueValidFunc s (some urlParams))
    (hd : ∀ pb ∈ mb.paramBinders,
      pb.defaultParamValue (some (urlParams ++ [(k, v)])) =
        pb.defaultParamValue (some urlParams)) :
    ∀ (m : M) (a : String), a ≠ k →
      mb.presentModelStep (urlParams ++ [(k, v)]) m a =
        mb.presentModelStep urlParams m a := by
  intro m a ha
  unfold ModelBinder.presentModelStep
  cases hf : mb.paramBinders.find? (fun pb => pb.urlParamName == a) with
  | none => rfl
  | some pb =>
    have hmem := List.mem_of_find?_eq_some hf
    show (if !(pb.isUrlParamValid ((Params.get (urlParams ++ [(k, v)]) a).getD "")
            (some (urlParams ++ [(k, v)]))) then m
        else pb.setValueToModelFunc m
          (pb.parseUrlParamValue ((Params.get (urlParams ++ [(k, v)]) a).getD "")
            (some (urlParams ++ [(k, v)])))) =
      (if !(pb.isUrlParamValid ((Params.get urlParams a).getD "") (some urlParams)) then m
        else pb.setValueToModelFunc m
          (pb.parseUrlParamValue ((Params.get urlParams a).getD "") (some urlParams)))
    unfold ParamBinder.parseUrlParamValue ParamBinder.isUrlParamValid
      ParamBinder.getDefaultParamValue
    rw [get_append_single_ne _ _ _ _ ha, hv pb hmem, hd pb hmem]

theorem c8_decodedModel_eq {M : Type} (mb : ModelBinder M) (emptyModel : M)
    (urlParams : Params) (model? : Option M) (k v : String)
    (hunreg : mb.paramBinders.find? (fun pb => pb.urlParamName == k) = none)
    (hfresh : Params.get urlParams k = none)
    (hv : ∀ pb ∈ mb.paramBinders, ∀ s,
      pb.isUrlParamValueValidFunc s (some (urlParams ++ [(k, v)])) =
        pb.isUrlParamValueValidFunc s (some urlParams))
    (hd : ∀ pb ∈ mb.paramBinders,
      pb.defaultParamValue (some (urlParams ++ [(k, v)])) =
        pb.defaultParamValue (some urlParams)) :
    mb.decodedModel emptyModel (urlParams ++ [(k, v)]) model? =
      mb.decodedModel emptyModel urlParams model? := by
  rw [decodedModel_eq, decodedModel_eq, keys_append_single, List.foldl_append,
    c8_decodeAbsent_eq mb urlParams k v hunreg hd]
  simp only [List.foldl_cons, List.foldl_nil]
  rw [show ∀ m, mb.presentModelStep (urlParams ++ [(k, v)]) m k = m by
    intro m
    unfold ModelBinder.presentModelStep
    rw [hunreg]]
  apply foldl_congr_mem
  intro m a hamem
  have hane : a ≠ k := by
    intro he
    subst he
    have := (Params.mem_keys urlParams a).mp hamem
    rw [hfresh] at this
    simp at this
  exact c8_presentModelStep_eq mb urlParams k v hv hd m a hane

theorem c8_filter_eq {M : Type} (mb : ModelBinder M) (urlParams : Params) (k v : String)
    (hunreg : mb.paramBinders.find? (fun pb => pb.urlParamName == k) = none)
    (hv : ∀ pb ∈ mb.paramBinders, ∀ s,
      pb.isUrlParamValueValidFunc s (some (urlParams ++ [(k, v)])) =
        pb.isUrlParamValueValidFunc s (some urlParams)) :
    (urlParams ++ [(k, v)]).filter
        (fun e => !(mb.isInvalidKey (urlParams ++ [(k, v)]) e.1)) =
      urlParams.filter (fun e => !(mb.isInvalidKey urlParams e.1)) ++ [(k, v)] := by
  rw [funext (c8_isInvalidKey_eq mb urlParams k v hunreg hv), List.filter_append]
  have hk : mb.isInvalidKey urlParams k = false := by
    unfold ModelBinder.isInvalidKey
    rw [hunreg]
  simp [List.filter_cons, hk]

theorem c8_setDefaultsFold_get_congr {M : Type} (urlParams : Params) (k v : String) :
    ∀ (l : List (ParamBinder M)) (b₁ b₂ : Params),
      (∀ pb ∈ l, pb.getDefaultParamValue (some (urlParams ++ [(k, v)])) =
        pb.getDefaultParamValue (some urlParams)) →
      (∀ a, a ≠ k → Params.get b₁ a = Params.get b₂ a) →
      ∀ a, a ≠ k →
        Params.get (l.foldl (fun np pb => Params.set np pb.urlParamName
          (pb.getDefaultParamValue (some (urlParams ++ [(k, v)])))) b₁) a =
        Params.get (l.foldl (fun np pb => Params.set np pb.urlParamName
          (pb.getDefaultParamValue (some urlParams))) b₂) a := by
  intro l
  induction l with
  | nil => intro b₁ b₂ _ hbase a ha; exact hbase a ha
  | cons b rest ih =>
    intro b₁ b₂ hd hbase a ha
    rw [List.foldl_cons, List.foldl_cons]
    refine ih _ _ (fun pb hpb => hd pb (List.mem_cons_of_mem _ hpb)) ?_ a ha
    intro a' ha'
    rw [Params.get_set, Params.get_set, hd b (List.mem_cons_self _ _)]
    by_cases hab : a' = b.urlParamName
    · simp [hab]
    · rw [if_neg hab, if_neg hab]
      exact hbase a' ha'

/-- Counterexample to C8 as stated: validators receive the whole parameter
set, so a key with no registered binder can still change which result variant
decode returns.  Binder `a` is valid exactly while the unregistered key `u`
is absent; adding the entry `u=1` flips the result from the model variant to
the `newParams` variant. -/
theorem c8_unregistered_key_counterexample :
    mbU.getModelFromUrlParams [] [("a", "x")] none =
      Except.ok { model? := some [("a", "x")], newParams? := none } ∧
    mbU.getModelFromUrlParams [] [("a", "x"), ("u", "1")] none =
      Except.ok { model? := none, newParams? := some [("u", "1")] } :=
  ⟨rfl, rfl⟩

/-- C8 (amended): a present key with no registered binder is ignored by
decode — it never sets the error flag and no model field is written for it —
and, provided no registered binder's validator or default supplier observes
the added entry, its presence changes neither the result variant nor the
decoded model; the unregistered entry itself is retained in `newParams` at
its original value and every other key of `newParams` keeps the value it
would have had without it. -/
theorem c8_unregistered_key_ignored {M : Type} (mb : ModelBinder M) (emptyModel : M)
    (urlParams : Params) (model? : Option M) (k v : String)
    (hunreg : mb.paramBinders.find? (fun pb => pb.urlParamName == k) = none)
    (hfresh : Params.get urlParams k = none)
    (hv : ∀ pb ∈ mb.paramBinders, ∀ s,
      pb.isUrlParamValueValidFunc s (some (urlParams ++ [(k, v)])) =
        pb.isUrlParamValueValidFunc s (some urlParams))
    (hd : ∀ pb ∈ mb.paramBinders,
      pb.defaultParamValue (some (urlParams ++ [(k, v)])) =
        pb.defaultParamValue (some urlParams)) :
    mb.hasInvalidKey (urlParams ++ [(k, v)]) = mb.hasInvalidKey urlParams ∧
    mb.decodedModel emptyModel (urlParams ++ [(k, v)]) model? =
      mb.decodedModel emptyModel urlParams model? ∧
    ∃ r r', mb.getModelFromUrlParams emptyModel urlParams model? = Except.ok r ∧
      mb.getModelFromUrlParams emptyModel (urlParams ++ [(k, v)]) model? = Except.ok r' ∧
      r'.model? = r.model? ∧ r'.newParams?.isSome = r.newParams?.isSome ∧
      (∀ np np', r.newParams? = some np → r'.newParams? = some np' →
        Params.get np' k = some v ∧ ∀ a, a ≠ k → Params.get np' a = Params.get np a) := by
  have hinv := c8_hasInvalidKey_eq mb urlParams k v hunreg hv
  have hmod := c8_decodedModel_eq mb emptyModel urlParams model? k v hunreg hfresh hv hd
  refine ⟨hinv, hmod, _, _, getModelFromUrlParams_eq _ _ _ _,
    getModelFromUrlParams_eq _ _ _ _, ?_, ?_, ?_⟩
  · rw [decodePure_eq, decodePure_eq, hinv, hmod]
    cases h1 : mb.hasInvalidKey urlParams with
    | true => simp
    | false =>
      cases h2 : mb.anyInconsistent (mb.decodedModel emptyModel urlParams model?) <;> simp
  · rw [decodePure_eq, decodePure_eq, hinv, hmod]
    cases h1 : mb.hasInvalidKey urlParams with
    | true => simp
    | false =>
      cases h2 : mb.anyInconsistent (mb.decodedModel emptyModel urlParams model?) <;> simp
  · rw [decodePure_eq, decodePure_eq, hinv, hmod]
    cases h1 : mb.hasInvalidKey urlParams with
    | true =>
      simp only [if_true]
      intro np np' hnp hnp'
      injection hnp with hnp
      injection hnp' with hnp'
      rw [← hnp, ← hnp', c8_filter_eq mb urlParams k v hunreg hv]
      constructor
      · exact get_append_single_eq _ k v (get_filter_none _ urlParams k hfresh)
      · intro a ha
        exact get_append_single_ne _ k v a ha
    | false =>
      simp only [Bool.false_eq_true, if_false]
      cases h2 : mb.anyInconsistent (mb.decodedModel emptyModel urlParams model?) with
      | true =>
        simp only [if_true]
        intro np np' hnp hnp'
        injection hnp with hnp
        injection hnp' with hnp'
        rw [← hnp, ← hnp']
        constructor
        · show Params.get (mb.resetToDefaults (urlParams ++ [(k, v)])
            (urlParams ++ [(k, v)])) k = some v
          unfold ModelBinder.resetToDefaults
          rw [get_setDefaultsFold_not_mem (urlParams ++ [(k, v)]) mb.paramBinders _ k
            (names_ne_of_find?_none mb k hunreg)]
          exact get_append_single_eq _ k v hfresh
        · intro a ha
          show Params.get (mb.resetToDefaults (urlParams ++ [(k, v)])
              (urlParams ++ [(k, v)])) a =
            Params.get (mb.resetToDefaults urlParams urlParams) a
          unfold ModelBinder.resetToDefaults
          refine c8_setDefaultsFold_get_congr urlParams k v mb.paramBinders _ _ ?_ ?_ a ha
          · intro pb hpb
            show pb.defaultParamValue (some (urlParams ++ [(k, v)])) =
              pb.defaultParamValue (some urlParams)
            exact hd pb hpb
          · intro a' ha'
            exact get_append_single_ne _ k v a' ha'
      | false =>
        simp only [Bool.false_eq_true, if_false]
        intro np np' hnp hnp'
        exact Option.noConfusion hnp

/-- Witness for the amended C8: with context-free binders `A`,`B` and input
`B=bad` (invalid), appending the fresh unregistered entry `u=1` keeps the
error flag, retains `u` at `1` in `newParams`, and leaves other keys as they
would have been. -/
theorem c8_unregistered_key_ignored_witness :
    mbAB.hasInvalidKey [("B", "bad"), ("u", "1")] = mbAB.hasInvalidKey [("B", "bad")] ∧
    Params.get [("u", "1")] "u" = some "1" ∧
    Params.get [("u", "1")] "B" = Params.get ([] : Params) "B" := by
  have hv : ∀ pb ∈ mbAB.paramBinders, ∀ s,
      pb.isUrlParamValueValidFunc s (some ([("B", "bad")] ++ [("u", "1")])) =
        pb.isUrlParamValueValidFunc s (some [("B", "bad")]) := by
    intro pb hpb s
    rcases List.mem_cons.mp hpb with h1 | h1
    · subst h1; rfl
    · rcases List.mem_cons.mp h1 with h2 | h2
      · subst h2; rfl
      · cases h2
  have hd : ∀ pb ∈ mbAB.paramBinders,
      pb.defaultParamValue (some ([("B", "bad")] ++ [("u", "1")])) =
        pb.defaultParamValue (some [("B", "bad")]) := by
    intro pb hpb
    rcases List.mem_cons.mp hpb with h1 | h1
    · subst h1; rfl
    · rcases List.mem_cons.mp h1 with h2 | h2
      · subst h2; rfl
      · cases h2
  obtain ⟨hinv, hmodeq, r, r', hr, hr', hmodel, hsome, hget⟩ :=
    c8_unregistered_key_ignored mbAB [] [("B", "bad")] none "u" "1" rfl rfl hv hd
  have h0 : mbAB.getModelFromUrlParams [] [("B", "bad")] none =
      Except.ok { model? := none, newParams? := some ([] : Params) } := rfl
  have h0' : mbAB.getModelFromUrlParams [] ([("B", "bad")] ++ [("u", "1")]) none =
      Except.ok { model? := none, newParams? := some [("u", "1")] } := rfl
  have hrc : r = { model? := none, newParams? := some ([] : Params) } := by
    have := hr.symm.trans h0
    injection this
  have hrc' : r' = { model? := none, newParams? := some [("u", "1")] } := by
    have := hr'.symm.trans h0'
    injection this
  have hg := hget ([] : Params) [("u", "1")] (by rw [hrc]) (by rw [hrc'])
  exact ⟨hinv, hg.1, hg.2 "B" (by decide)⟩

/-! Reads of the fully assembled decode model, present keys included. -/

theorem exists_last_occ {α : Type} [DecidableEq α] :
    ∀ (l : List α) (a : α), a ∈ l → ∃ l₁ l₂, l = l₁ ++ a :: l₂ ∧ a ∉ l₂ := by
  intro l
  induction l with
  | nil => intro a h; cases h
  | cons b rest ih =>
    intro a h
    by_cases hmem : a ∈ rest
    · obtain ⟨l₁, l₂, hsplit, hnot⟩ := ih a hmem
      exact ⟨b :: l₁, l₂, by rw [hsplit]; rfl, hnot⟩
    · have hab : b = a := by
        rcases List.mem_cons.mp h with h1 | h1
        · exact h1.symm
        · exact absurd h1 hmem
      exact ⟨[], rest, by rw [hab]; rfl, hmem⟩

theorem getUrlParamValue_of_read {M : Type} (pb : ParamBinder M) (m : M) (x : String)
    (h : pb.getUrlParamValueFunc m = some x) : pb.getUrlParamValue m = x := by
  unfold ParamBinder.getUrlParamValue
  rw [h]

theorem parseUrlParamValue_valid {M : Type} (pb : ParamBinder M) (v : String)
    (ctx : Option Params) (hvalid : pb.isUrlParamValid v ctx = true) :
    pb.parseUrlParamValue v ctx = v := by
  unfold ParamBinder.parseUrlParamValue
  simp [hvalid]

theorem presentModelStep_valid {M : Type} (mb : ModelBinder M) (urlParams : Params)
    (pb : ParamBinder M)
    (hfind : mb.paramBinders.find? (fun x => x.urlParamName == pb.urlParamName) = some pb)
    (hvalid : pb.isUrlParamValid ((Params.get urlParams pb.urlParamName).getD "")
      (some urlParams) = true) (m : M) :
    mb.presentModelStep urlParams m pb.urlParamName =
      pb.setValueToModelFunc m (pb.parseUrlParamValue
        ((Params.get urlParams pb.urlParamName).getD "") (some urlParams)) := by
  unfold ModelBinder.presentModelStep
  rw [hfind]
  simp [hvalid]

theorem read_decodedModel {M : Type} (mb : ModelBinder M) (emptyModel : M)
    (urlParams : Params) (model? : Option M) (pb : ParamBinder M)
    (hnd : (mb.paramBinders.map (fun x => x.urlParamName)).Nodup)
    (hmem : pb ∈ mb.paramBinders)
    (hrw : ∀ m v, pb.getUrlParamValueFunc (pb.setValueToModelFunc m v) = some v)
    (hdisj : ∀ pb' ∈ mb.paramBinders, pb'.urlParamName ≠ pb.urlParamName →
      ∀ m v, pb.getUrlParamValueFunc (pb'.setValueToModelFunc m v) = pb.getUrlParamValueFunc m)
    (hnoinv : mb.hasInvalidKey urlParams = false) :
    pb.getUrlParamValueFunc (mb.decodedModel emptyModel urlParams model?) =
      some ((Params.get urlParams pb.urlParamName).getD
        (pb.getDefaultParamValue (some urlParams))) := by
  by_cases hpres : pb.urlParamName ∈ Params.keys urlParams
  · have hsomev := (Params.mem_keys urlParams pb.urlParamName).mp hpres
    obtain ⟨v, hv⟩ := Option.isSome_iff_exists.mp hsomev
    have hinvk : mb.isInvalidKey urlParams pb.urlParamName = false := by
      unfold ModelBinder.hasInvalidKey at hnoinv
      simpa using List.any_eq_false.mp hnoinv pb.urlParamName hpres
    have hfind := find?_eq_self_of_nodup mb.paramBinders pb hnd hmem
    have hvalid : pb.isUrlParamValid ((Params.get urlParams pb.urlParamName).getD "")
        (some urlParams) = true := by
      unfold ModelBinder.isInvalidKey at hinvk
      rw [hfind] at hinvk
      simpa using hinvk
    obtain ⟨K₁, K₂, hsplit, hnot⟩ := exists_last_occ (Params.keys urlParams)
      pb.urlParamName hpres
    rw [decodedModel_eq, hsplit, List.foldl_append, List.foldl_cons]
    rw [read_presentModelFold_ne mb urlParams pb hdisj K₂
      (fun k hk hke => hnot (hke ▸ hk))]
    rw [presentModelStep_valid mb urlParams pb hfind hvalid, hrw,
      parseUrlParamValue_valid pb _ _ hvalid, hv]
    rfl
  · rw [decodedModel_eq]
    rw [read_presentModelFold_ne mb urlParams pb hdisj (Params.keys urlParams)
      (fun k hk hke => hpres (hke ▸ hk))]
    rw [read_decodeAbsent_of_absent mb urlParams pb hnd hmem hpres hrw hdisj]
    have : Params.get urlParams pb.urlParamName = none := by
      cases hg : Params.get urlParams pb.urlParamName with
      | none => rfl
      | some w =>
        exact absurd ((Params.mem_keys urlParams pb.urlParamName).mpr (by rw [hg]; rfl)) hpres
    rw [this]
    rfl

theorem c5_get_out {M : Type} (mb : ModelBinder M) (model : M)
    (hnd : (mb.paramBinders.map (fun x => x.urlParamName)).Nodup)
    (pb : ParamBinder M) (hmem : pb ∈ mb.paramBinders)
    (hdctx : ∀ p p', pb.defaultParamValue p = pb.defaultParamValue p') :
    Params.get (encodeFold mb.paramBinders model Params.empty) pb.urlParamName =
      if pb.getUrlParamValue model != pb.defaultParamValue none then
        some (pb.getUrlParamValue model)
      else none := by
  obtain ⟨l₁, l₂, hsplit⟩ := List.append_of_mem hmem
  rw [hsplit] at hnd ⊢
  rw [encodeFold_get_split model l₁ pb l₂ hnd]
  rw [show pb.getDefaultParamValue (some (encodeFold l₁ model Params.empty)) =
    pb.defaultParamValue none from hdctx _ _]

/-- C5 (amended): for binder sets whose validators and default suppliers
ignore the parameter-set context, whose write-then-read accessors return the
written string, whose binders with different names touch disjoint model
parts, and whose consistency checks depend only on the binder-readable
fields, a model obtained from a successful decode encodes (with no supplied
set) and decodes again into a model with the same binder-readable fields. -/
theorem c5_roundtrip {M : Type} (mb : ModelBinder M) (emptyModel : M)
    (urlParams : Params) (model? : Option M) (Mdl : M)
    (hnd : (mb.paramBinders.map (fun x => x.urlParamName)).Nodup)
    (hrw : ∀ pb ∈ mb.paramBinders, ∀ m v,
      pb.getUrlParamValueFunc (pb.setValueToModelFunc m v) = some v)
    (hdisj : ∀ pb ∈ mb.paramBinders, ∀ pb' ∈ mb.paramBinders,
      pb'.urlParamName ≠ pb.urlParamName →
      ∀ m v, pb.getUrlParamValueFunc (pb'.setValueToModelFunc m v) = pb.getUrlParamValueFunc m)
    (hvctx : ∀ pb ∈ mb.paramBinders, ∀ s p p',
      pb.isUrlParamValueValidFunc s p = pb.isUrlParamValueValidFunc s p')
    (hdctx : ∀ pb ∈ mb.paramBinders, ∀ p p',
      pb.defaultParamValue p = pb.defaultParamValue p')
    (hcons : ∀ pb ∈ mb.paramBinders, ∀ m m',
      (∀ pb' ∈ mb.paramBinders, pb'.getUrlParamValue m = pb'.getUrlParamValue m') →
      pb.isModelConsistent m = pb.isModelConsistent m')
    (hsucc : mb.getModelFromUrlParams emptyModel urlParams model? =
      Except.ok { model? := some Mdl, newParams? := none }) :
    ∃ out, mb.getUrlParamsFromModel (some Mdl) none = Except.ok out ∧
      ∃ M', mb.getModelFromUrlParams emptyModel out none =
          Except.ok { model? := some M', newParams? := none } ∧
        ∀ pb ∈ mb.paramBinders, pb.getUrlParamValue M' = pb.getUrlParamValue Mdl := by
  rw [getModelFromUrlParams_eq] at hsucc
  have hsucc' : mb.decodePure emptyModel urlParams model? =
      { model? := some Mdl, newParams? := none } := by injection hsucc
  rw [decodePure_eq] at hsucc'
  cases h1 : mb.hasInvalidKey urlParams with
  | true =>
    rw [h1] at hsucc'
    simp at hsucc'
  | false =>
  rw [h1] at hsucc'
  simp only [Bool.false_eq_true, if_false] at hsucc'
  cases h2 : mb.anyInconsistent (mb.decodedModel emptyModel urlParams model?) with
  | true =>
    rw [h2] at hsucc'
    simp at hsucc'
  | false =>
  rw [h2] at hsucc'
  simp only [Bool.false_eq_true, if_false] at hsucc'
  have hM : mb.decodedModel emptyModel urlParams model? = Mdl := by
    have := congrArg (fun r => r.model?) hsucc'
    simpa using this
  have hallcons : ∀ pb ∈ mb.paramBinders, pb.isModelConsistent Mdl = true := by
    intro pb hpb
    unfold ModelBinder.anyInconsistent at h2
    have := List.any_eq_false.mp h2 (pb.isModelConsistent (mb.decodedModel emptyModel urlParams model?))
      (List.mem_map_of_mem _ hpb)
    rw [hM] at this
    cases hc : pb.isModelConsistent Mdl with
    | true => rfl
    | false => rw [hc] at this; simp at this
  have hreads : ∀ pb ∈ mb.paramBinders, pb.getUrlParamValueFunc Mdl =
      some ((Params.get urlParams pb.urlParamName).getD
        (pb.getDefaultParamValue (some urlParams))) := by
    intro pb hpb
    rw [← hM]
    exact read_decodedModel mb emptyModel urlParams model? pb hnd hpb (hrw pb hpb)
      (fun pb' hpb' hne => hdisj pb hpb pb' hpb' hne) h1
  have hval : ∀ pb ∈ mb.paramBinders, pb.getUrlParamValue Mdl =
      (Params.get urlParams pb.urlParamName).getD
        (pb.getDefaultParamValue (some urlParams)) :=
    fun pb hpb => getUrlParamValue_of_read pb Mdl _ (hreads pb hpb)
  have hget : ∀ pb ∈ mb.paramBinders,
      Params.get (encodeFold mb.paramBinders Mdl Params.empty) pb.urlParamName =
        if pb.getUrlParamValue Mdl != pb.defaultParamValue none then
          some (pb.getUrlParamValue Mdl)
        else none :=
    fun pb hpb => c5_get_out mb Mdl hnd pb hpb (hdctx pb hpb)
  have hnoinv_out : mb.hasInvalidKey (encodeFold mb.paramBinders Mdl Params.empty) = false := by
    unfold ModelBinder.hasInvalidKey
    rw [List.any_eq_false]
    intro k hkmem
    have hksome := (Params.mem_keys _ k).mp hkmem
    by_cases hreg : ∃ pb ∈ mb.paramBinders, pb.urlParamName = k
    · obtain ⟨pb, hpb, hname⟩ := hreg
      subst hname
      have hfind := find?_eq_self_of_nodup mb.paramBinders pb hnd hpb
      have hg := hget pb hpb
      cases hif : (pb.getUrlParamValue Mdl != pb.defaultParamValue none) with
      | false =>
        rw [hif] at hg
        simp only [Bool.false_eq_true, if_false] at hg
        rw [hg] at hksome
        simp at hksome
      | true =>
        rw [hif] at hg
        simp only [if_true] at hg
        have hvalid_r : pb.isUrlParamValueValidFunc (pb.getUrlParamValue Mdl)
            (some (encodeFold mb.paramBinders Mdl Params.empty)) = true := by
          cases hgp : Params.get urlParams pb.urlParamName with
          | none =>
            exfalso
            have hvv := hval pb hpb
            rw [hgp] at hvv
            have hr : pb.getUrlParamValue Mdl = pb.defaultParamValue none := by
              rw [hvv]
              exact hdctx pb hpb _ _
            rw [hr] at hif
            simp at hif
          | some w =>
            have hpres : pb.urlParamName ∈ Params.keys urlParams :=
              (Params.mem_keys _ _).mpr (by rw [hgp]; rfl)
            have hinvk : mb.isInvalidKey urlParams pb.urlParamName = false := by
              unfold ModelBinder.hasInvalidKey at h1
              simpa using List.any_eq_false.mp h1 _ hpres
            have hvalid : pb.isUrlParamValueValidFunc
                ((Params.get urlParams pb.urlParamName).getD "") (some urlParams) = true := by
              unfold ModelBinder.isInvalidKey at hinvk
              rw [hfind] at hinvk
              simpa [ParamBinder.isUrlParamValid] using hinvk
            have hr : pb.getUrlParamValue Mdl = w := by
              rw [hval pb hpb, hgp]
              rfl
            rw [hr, hvctx pb hpb w _ (some urlParams)]
            rw [hgp] at hvalid
            exact hvalid
        unfold ModelBinder.isInvalidKey
        rw [hfind, hg]
        intro hbad
        have hbad2 : (!(pb.isUrlParamValueValidFunc (pb.getUrlParamValue Mdl)
            (some (encodeFold mb.paramBinders Mdl Params.empty)))) = true := hbad
        rw [hvalid_r] at hbad2
        simp at hbad2
    · have hfnone : mb.paramBinders.find? (fun x => x.urlParamName == k) = none := by
        rw [List.find?_eq_none]
        intro pb hpb
        simp only [beq_iff_eq]
        exact fun he => hreg ⟨pb, hpb, he⟩
      unfold ModelBinder.isInvalidKey
      rw [hfnone]
      simp
  have hreads' : ∀ pb ∈ mb.paramBinders,
      pb.getUrlParamValueFunc
        (mb.decodedModel emptyModel (encodeFold mb.paramBinders Mdl Params.empty) none) =
      some (pb.getUrlParamValue Mdl) := by
    intro pb hpb
    rw [read_decodedModel mb emptyModel _ none pb hnd hpb (hrw pb hpb)
      (fun pb' hpb' hne => hdisj pb hpb pb' hpb' hne) hnoinv_out]
    have hg := hget pb hpb
    cases hif : (pb.getUrlParamValue Mdl != pb.defaultParamValue none) with
    | true =>
      rw [hif] at hg
      simp only [if_true] at hg
      rw [hg]
      rfl
    | false =>
      rw [hif] at hg
      simp only [Bool.false_eq_true, if_false] at hg
      rw [hg]
      have heq : pb.getUrlParamValue Mdl = pb.defaultParamValue none := by
        simpa using hif
      rw [show (none : Option String).getD (pb.getDefaultParamValue
        (some (encodeFold mb.paramBinders Mdl Params.empty))) =
        pb.defaultParamValue (some (encodeFold mb.paramBinders Mdl Params.empty)) from rfl]
      rw [hdctx pb hpb _ none, heq]
  have hvals' : ∀ pb ∈ mb.paramBinders,
      pb.getUrlParamValue
        (mb.decodedModel emptyModel (encodeFold mb.paramBinders Mdl Params.empty) none) =
      pb.getUrlParamValue Mdl :=
    fun pb hpb => getUrlParamValue_of_read _ _ _ (hreads' pb hpb)
  have hcons' : mb.anyInconsistent
      (mb.decodedModel emptyModel (encodeFold mb.paramBinders Mdl Params.empty) none) = false := by
    unfold ModelBinder.anyInconsistent
    rw [List.any_eq_false]
    intro b hb
    obtain ⟨pb, hpb, hbe⟩ := List.mem_map.mp hb
    rw [← hbe, hcons pb hpb _ Mdl hvals', hallcons pb hpb]
    simp
  refine ⟨encodeFold mb.paramBinders Mdl Params.empty, getUrlParamsFromModel_eq mb Mdl none,
    mb.decodedModel emptyModel (encodeFold mb.paramBinders Mdl Params.empty) none, ?_, hvals'⟩
  rw [getModelFromUrlParams_eq, decodePure_eq, hnoinv_out, hcons']
  simp

/-- Counterexample to C5 as stated: all suppliers of `binderBang` are pure,
the decode of `a=x` succeeds, yet its read accessor decorates the stored
value (`x` reads back as `x!`), so encode emits `a=x!`, the re-decode stores
`x!`, and the binder-readable field of the round-tripped model (`x!!`)
differs from the original (`x!`). -/
theorem c5_roundtrip_counterexample :
    mbBang.getModelFromUrlParams [] [("a", "x")] none =
      Except.ok { model? := some [("a", "x")], newParams? := none } ∧
    mbBang.getUrlParamsFromModel (some [("a", "x")]) none = Except.ok [("a", "x!")] ∧
    mbBang.getModelFromUrlParams [] [("a", "x!")] none =
      Except.ok { model? := some [("a", "x!")], newParams? := none } ∧
    binderBang.getUrlParamValue [("a", "x!")] ≠ binderBang.getUrlParamValue [("a", "x")] :=
  ⟨rfl, rfl, rfl, by decide⟩

/-- Witness for the amended C5: the well-behaved binder `a` decodes `a=x`,
encodes it back to `a=x`, and the round-tripped model reads the same value. -/
theorem c5_roundtrip_witness :
    mbE.getUrlParamsFromModel (some [("a", "x")]) none = Except.ok [("a", "x")] ∧
    mbE.getModelFromUrlParams [] [("a", "x")] none =
      Except.ok { model? := some [("a", "x")], newParams? := none } ∧
    binderE.getUrlParamValue [("a", "x")] = "x" := by
  have hrw : ∀ pb ∈ mbE.paramBinders, ∀ (m : Params) (v : String),
      pb.getUrlParamValueFunc (pb.setValueToModelFunc m v) = some v := by
    intro pb hpb m v
    rcases List.mem_cons.mp hpb with h1 | h1
    · subst h1
      simp [binderE, mkBinder, Params.get_set]
    · cases h1
  have hdisj : ∀ pb ∈ mbE.paramBinders, ∀ pb' ∈ mbE.paramBinders,
      pb'.urlParamName ≠ pb.urlParamName → ∀ (m : Params) (v : String),
      pb.getUrlParamValueFunc (pb'.setValueToModelFunc m v) = pb.getUrlParamValueFunc m := by
    intro pb hpb pb' hpb' hne m v
    rcases List.mem_cons.mp hpb with h1 | h1
    · rcases List.mem_cons.mp hpb' with h2 | h2
      · subst h1
        subst h2
        exact absurd rfl hne
      · cases h2
    · cases h1
  have hcons : ∀ pb ∈ mbE.paramBinders, ∀ (m m' : Params),
      (∀ pb' ∈ mbE.paramBinders, pb'.getUrlParamValue m = pb'.getUrlParamValue m') →
      pb.isModelConsistent m = pb.isModelConsistent m' := by
    intro pb hpb m m' _
    rcases List.mem_cons.mp hpb with h1 | h1
    · subst h1
      rfl
    · cases h1
  obtain ⟨out, hout, M', hM', hvals⟩ := c5_roundtrip mbE [] [("a", "x")] none [("a", "x")]
    (by decide) hrw hdisj
    (fun pb hpb s p p' => by
      rcases List.mem_cons.mp hpb with h1 | h1
      · subst h1; rfl
      · cases h1)
    (fun pb hpb p p' => by
      rcases List.mem_cons.mp hpb with h1 | h1
      · subst h1; rfl
      · cases h1)
    hcons rfl
  have hout0 : mbE.getUrlParamsFromModel (some [("a", "x")]) none =
      Except.ok [("a", "x")] := rfl
  have houtc : out = [("a", "x")] := by
    have := hout.symm.trans hout0
    injection this
  rw [houtc] at hM'
  have hM0 : mbE.getModelFromUrlParams [] [("a", "x")] none =
      Except.ok { model? := some [("a", "x")], newParams? := none } := rfl
  have hMc : M' = [("a", "x")] := by
    have h := hM'.symm.trans hM0
    injection h with h
    have := congrArg (fun r => r.model?) h
    simpa using this
  have hv := hvals binderE (List.mem_cons_self _ _)
  have h3 : binderE.getUrlParamValue M' = "x" :=
    hv.trans (show binderE.getUrlParamValue [("a", "x")] = "x" from rfl)
  exact ⟨hout0, hM0, hMc ▸ h3⟩
